import Mathlib

/-
Verification development for the domain-scanner repository.

Shallow embedding conventions:
  - Python strings are modelled as `List Char` (abbreviated `Str`);
    `String.toList` is used only to write concrete literals in statements.
  - Wall-clock time is measured in milliseconds (`Nat`); the source's
    second-valued delays (1.0 s sleeps, 0.5 s redirect sleep) become
    1000 and 500.
  - The network is an oracle `Env := Nat -> Str -> NetResponse` mapping the
    global request index and the request URL to an outcome and a latency.
  - Python dictionaries keyed by strings become association lists.
  - `str.lower()` is modelled by a lowering table holding every
    character whose Python lowercase is ASCII (the 26 uppercase ASCII
    letters and U+212A); all other characters are kept unchanged, which
    agrees with the source on every validation verdict, since their
    Python lowercase stays outside the validators ASCII charsets.
-/

/-! ## Basic string model -/

abbrev Str := List Char

def isAlphaChar (c : Char) : Bool :=
  (('a' ≤ c && c ≤ 'z') || ('A' ≤ c && c ≤ 'Z'))

def isDigitChar (c : Char) : Bool :=
  ('0' ≤ c && c ≤ '9')

def isAlnumChar (c : Char) : Bool :=
  isAlphaChar c || isDigitChar c

/-- Characters allowed anywhere inside a label: alphanumeric or hyphen. -/
def isBaseChar (c : Char) : Bool :=
  isAlnumChar c || c = '-'

/-- The whitespace characters Python's `str.strip()` removes
(`str.isspace()`): ASCII whitespace, the C1 separators and NEL, NBSP,
and the Unicode space/line/paragraph separators. -/
def isSpaceChar (c : Char) : Bool :=
  c = ' ' || c = '\t' || c = '\n' || c = '\r' || c = '\x0b' || c = '\x0c' ||
  (0x1c ≤ c.toNat && c.toNat ≤ 0x1f) || c.toNat = 0x85 || c.toNat = 0xa0 ||
  c.toNat = 0x1680 || (0x2000 ≤ c.toNat && c.toNat ≤ 0x200a) ||
  c.toNat = 0x2028 || c.toNat = 0x2029 || c.toNat = 0x202f ||
  c.toNat = 0x205f || c.toNat = 0x3000

/-- The case mappings of Python's `str.lower()` whose result is ASCII:
the 26 uppercase ASCII letters, and U+212A (KELVIN SIGN), the single
non-ASCII character whose Python lowercase is an ASCII letter. -/
def lowerTable : List (Char × Char) :=
  [('A','a'), ('B','b'), ('C','c'), ('D','d'), ('E','e'), ('F','f'),
   ('G','g'), ('H','h'), ('I','i'), ('J','j'), ('K','k'), ('L','l'),
   ('M','m'), ('N','n'), ('O','o'), ('P','p'), ('Q','q'), ('R','r'),
   ('S','s'), ('T','t'), ('U','u'), ('V','v'), ('W','w'), ('X','x'),
   ('Y','y'), ('Z','z'), (Char.ofNat 0x212A, 'k')]

/-- Lowercasing of a single character as `str.lower()` does, restricted
to the mappings with an ASCII result.  Every other character is kept
unchanged: its Python lowercase is again non-ASCII (or, for U+0130, a
two-character sequence still containing the non-ASCII U+0307), so model
and source agree on every validation verdict and on every string that
reaches the network.  The table form makes facts about the function
decidable checks over the concrete pairs. -/
def lowerChar (c : Char) : Char :=
  match lowerTable.find? (fun p => decide (p.1 = c)) with
  | some p => p.2
  | none => c

def lowerStr (s : Str) : Str := s.map lowerChar

/-- Python `str.strip()` (both ends, ASCII whitespace). -/
def pyStrip (s : Str) : Str :=
  ((s.dropWhile isSpaceChar).reverse.dropWhile isSpaceChar).reverse

/-- Split a string on the character `'.'`, as Python `s.split('.')`. -/
def splitOnDot : Str → List Str
  | [] => [[]]
  | c :: rest =>
    match splitOnDot rest with
    | [] => [[c]]
    | p :: ps => if c = '.' then [] :: p :: ps else (c :: p) :: ps

/-! ## Domain-base validation (src/core/generators.py)

`DOMAIN_REGEX = ^[a-zA-Z0-9]([a-zA-Z0-9\-]{0,61}[a-zA-Z0-9])?$`.
A match is: a single alphanumeric character, or an alphanumeric first
character, 0–61 base characters, and an alphanumeric last character.
Because labels contain no `'.'`, the decomposition is unique and the
matcher below is an exact implementation of the anchored regex. -/

def MAX_DOMAIN_LENGTH : Nat := 63

def domainBaseRegexMatch (s : Str) : Bool :=
  match s with
  | [] => false
  | [c] => isAlnumChar c
  | c :: rest =>
    isAlnumChar c &&
    (match rest.getLast? with
     | none => false
     | some lastc =>
       isAlnumChar lastc && rest.dropLast.all isBaseChar &&
       decide (rest.dropLast.length ≤ 61))

/-- `DomainGenerator._is_valid_domain_base` (generators.py lines 181–203):
nonempty, length at most `MAX_DOMAIN_LENGTH`, and the regex match. -/
def is_valid_domain_base (s : Str) : Bool :=
  if s.isEmpty then false
  else if decide (s.length > MAX_DOMAIN_LENGTH) then false
  else domainBaseRegexMatch s

/-! ## Generator pipeline (src/core/generators.py) -/

/-- One iteration of the `from_file` loop body: strip+lowercase the line,
skip blank and `#`-comment lines, validate, deduplicate against `seen`.
Returns the optionally yielded value and the new dedup set. -/
def from_file_step (seen : List Str) (line : Str) : Option Str × List Str :=
  let d := lowerStr (pyStrip line)
  if d.isEmpty then (none, seen)
  else if d.head? = some '#' then (none, seen)
  else if is_valid_domain_base d then
    if d ∈ seen then (none, seen) else (some d, d :: seen)
  else (none, seen)

/-- One iteration of the `from_function` loop body: strip+lowercase the
value, validate, deduplicate.  (No comment/blank skipping: a blank or
`#`-value simply fails validation.) -/
def from_function_step (seen : List Str) (v : Str) : Option Str × List Str :=
  let d := lowerStr (pyStrip v)
  if is_valid_domain_base d then
    if d ∈ seen then (none, seen) else (some d, d :: seen)
  else (none, seen)

/-- Run a step function over a list of inputs, collecting yielded values
and threading the dedup set, as the generator loops do. -/
def runGen (step : List Str → Str → Option Str × List Str) :
    List Str → List Str → List Str × List Str
  | [], seen => ([], seen)
  | x :: xs, seen =>
    match step seen x with
    | (none, seen1) =>
      runGen step xs seen1
    | (some d, seen1) =>
      let (out, seen2) := runGen step xs seen1
      (d :: out, seen2)

/-- `DomainGenerator.from_file` applied to an already decoded and
line-split file body. -/
def from_file_lines (lines : List Str) (seen : List Str) : List Str × List Str :=
  runGen from_file_step lines seen

/-- `DomainGenerator.from_function` applied to the values produced by the
user generator function (already coerced to strings). -/
def from_function_vals (vals : List Str) (seen : List Str) : List Str × List Str :=
  runGen from_function_step vals seen

/-! ## UTF-8 decoding with Python `errors='ignore'` (from_file opens the
file as `open(filepath, 'r', encoding='utf-8', errors='ignore')`, so
undecodable bytes are dropped and decoding never raises). -/

def isContByte (b : Nat) : Bool := 0x80 ≤ b && b ≤ 0xBF

/-- Decode a byte sequence as UTF-8, skipping invalid sequences, as
CPython's `errors='ignore'` handler does. -/
def pyDecodeIgnore : List Nat → List Char
  | [] => []
  | [b] =>
    if b < 0x80 then [Char.ofNat b] else []
  | b :: b2 :: bs2 =>
    if b < 0x80 then Char.ofNat b :: pyDecodeIgnore (b2 :: bs2)
    else if 0xC2 ≤ b && b ≤ 0xDF then
      if isContByte b2 then
        Char.ofNat ((b - 0xC0) * 0x40 + (b2 - 0x80)) :: pyDecodeIgnore bs2
      else pyDecodeIgnore (b2 :: bs2)
    else if 0xE0 ≤ b && b ≤ 0xEF then
      if (if b = 0xE0 then 0xA0 ≤ b2 && b2 ≤ 0xBF
          else if b = 0xED then 0x80 ≤ b2 && b2 ≤ 0x9F
          else isContByte b2) then
        match bs2 with
        | [] => []
        | b3 :: bs3 =>
          if isContByte b3 then
            Char.ofNat ((b - 0xE0) * 0x1000 + (b2 - 0x80) * 0x40 + (b3 - 0x80))
              :: pyDecodeIgnore bs3
          else pyDecodeIgnore (b3 :: bs3)
      else pyDecodeIgnore (b2 :: bs2)
    else if 0xF0 ≤ b && b ≤ 0xF4 then
      if (if b = 0xF0 then 0x90 ≤ b2 && b2 ≤ 0xBF
          else if b = 0xF4 then 0x80 ≤ b2 && b2 ≤ 0x8F
          else isContByte b2) then
        match bs2 with
        | [] => []
        | b3 :: bs3 =>
          if isContByte b3 then
            match bs3 with
            | [] => []
            | b4 :: bs4 =>
              if isContByte b4 then
                Char.ofNat ((b - 0xF0) * 0x40000 + (b2 - 0x80) * 0x1000 +
                    (b3 - 0x80) * 0x40 + (b4 - 0x80)) :: pyDecodeIgnore bs4
              else pyDecodeIgnore (b4 :: bs4)
          else pyDecodeIgnore (b3 :: bs3)
      else pyDecodeIgnore (b2 :: bs2)
    else pyDecodeIgnore (b2 :: bs2)

/-- Strict UTF-8 validity: `true` iff a strict decode (Python default
`errors='strict'`) would succeed with no error, i.e. every byte belongs to
a well-formed sequence.  Used only to state that a counterexample file
really contains undecodable bytes. -/
def utf8Valid : List Nat → Bool
  | [] => true
  | b :: bs =>
    if b < 0x80 then utf8Valid bs
    else if 0xC2 ≤ b && b ≤ 0xDF then
      match bs with
      | b2 :: bs2 => isContByte b2 && utf8Valid bs2
      | [] => false
    else if 0xE0 ≤ b && b ≤ 0xEF then
      match bs with
      | b2 :: b3 :: bs3 =>
        (if b = 0xE0 then 0xA0 ≤ b2 && b2 ≤ 0xBF
         else if b = 0xED then 0x80 ≤ b2 && b2 ≤ 0x9F
         else isContByte b2) && isContByte b3 && utf8Valid bs3
      | _ => false
    else if 0xF0 ≤ b && b ≤ 0xF4 then
      match bs with
      | b2 :: b3 :: b4 :: bs4 =>
        (if b = 0xF0 then 0x90 ≤ b2 && b2 ≤ 0xBF
         else if b = 0xF4 then 0x80 ≤ b2 && b2 ≤ 0x8F
         else isContByte b2) && isContByte b3 && isContByte b4 && utf8Valid bs4
      | _ => false
    else false

/-- Split decoded text into lines at `'\n'`, as text-mode line iteration
does (the trailing newline each Python line carries is removed by the
subsequent `strip()` either way). -/
def splitLinesAt : Str → List Str
  | [] => [[]]
  | c :: rest =>
    match splitLinesAt rest with
    | [] => [[c]]
    | p :: ps => if c = '\n' then [] :: p :: ps else (c :: p) :: ps

/-- Errors `from_file` can signal: `notFound` models `FileNotFoundError`
for a missing path; `invalidEncoding` models the `ValueError` its
`except UnicodeDecodeError` handler would raise. -/
inductive FileError where
  | notFound
  | invalidEncoding
  deriving DecidableEq, Repr

/-- A file system: a partial map from paths to raw byte contents. -/
def FileSystem := Str → Option (List Nat)

/-- `DomainGenerator.from_file` (generators.py lines 35–77): check
existence, open with `encoding='utf-8', errors='ignore'`, and run the
validate/dedup loop over the decoded lines. -/
def from_file (fs : FileSystem) (filepath : Str) (seen : List Str) :
    Except FileError (List Str × List Str) :=
  match fs filepath with
  | none => .error .notFound
  | some bytes => .ok (from_file_lines (splitLinesAt (pyDecodeIgnore bytes)) seen)

/-! ## RDAP resolver model (src/core/rdap_client.py)

  - `ClientState.last_query_time` models `self.last_query_time`
    (dict write = prepend to the association list).
  - `ClientState.now` is the wall clock in milliseconds; sleeps advance it.
  - `ClientState.trace` records every physical network request (URL, the
    rate-limit bookkeeping key it was issued under — `none` for the
    redirect-target re-probe, which the source never bookkeeps — and its
    issue time).
  - The recursive retry/escalate self-calls of `check_domain` are
    modelled by `directAttempts`/`genericAttempts`, where `retriesLeft`
    stands for `max_retries - retry_count`; the duplicated
    `self.last_query_time[server_type] = time.time()` in each level's
    `finally` becomes a `touch` on unwind.  The temporary
    `prefer_direct = False` flip during escalation (restored in a
    `finally`) appears as the escalated call going straight to
    `genericAttempts`.
-/

def gKey : Str := "rdap.org".toList

def RDAP_ORG_URL_STEM : Str := "https://rdap.org/domain/".toList

/-- `DIRECT_RDAP_SERVERS`: TLD to URL stem (the source templates end in
the literal text "domain/" followed by the formatted domain). -/
def DIRECT_RDAP_SERVERS : List (Str × Str) :=
  [(".ch".toList, "https://rdap.nic.ch/domain/".toList),
   (".li".toList, "https://rdap.nic.ch/domain/".toList),
   (".de".toList, "https://rdap.denic.de/domain/".toList)]

/-- `STATUS_CODES`: the HTTP status to (available, status) table. -/
def STATUS_CODES (code : Nat) : Option (Bool × Str) :=
  if code = 200 then some (false, "registered".toList)
  else if code = 401 then some (false, "registered".toList)
  else if code = 404 then some (true, "available".toList)
  else if code = 400 then some (false, "invalid_request".toList)
  else if code = 429 then some (false, "rate_limited".toList)
  else if code = 403 then some (false, "forbidden".toList)
  else if code = 500 then some (false, "server_error".toList)
  else if code = 503 then some (false, "service_unavailable".toList)
  else if code = 302 then some (false, "redirect".toList)
  else none

/-- Classification applied by `check_domain` outside the generic-registry
special cases: the `STATUS_CODES` entry if present, otherwise the
unknown-status-code outcome (rdap_client.py lines 245–253). -/
def classifyPair (code : Nat) : Bool × Str :=
  (STATUS_CODES code).getD (false, "unknown_status_code".toList)

/-- Classification of the redirect-target response (rdap_client.py lines
205–219): 404 handled explicitly, then the table, then unknown. -/
def classifyRedirectTarget (code : Nat) : Bool × Str :=
  if code = 404 then (true, "available".toList) else classifyPair code

/-- `RdapClient._is_valid_domain`, i.e. the anchored regex
`^([a-zA-Z0-9]([a-zA-Z0-9\-]{0,61}[a-zA-Z0-9])?\.)+[a-zA-Z]\x7b2,\x7d$`:
one or more dot-terminated labels followed by an all-letter TLD of length
at least 2.  Since neither labels nor the TLD may contain a dot, the
regex decomposition coincides with splitting on dots. -/
def is_valid_domain (d : Str) : Bool :=
  let parts := splitOnDot d
  decide (2 ≤ parts.length) &&
  parts.dropLast.all domainBaseRegexMatch &&
  (let t := (parts.getLast?).getD []
   decide (2 ≤ t.length) && t.all isAlphaChar)

/-- `RdapClient._extract_tld`. -/
def extract_tld (d : Str) : Str :=
  let parts := splitOnDot d
  if 2 ≤ parts.length then '.' :: (parts.getLast?).getD [] else []

/-- `SERVER_DELAY` dictionary lookup (values in milliseconds). -/
def SERVER_DELAY_lookup (k : Str) : Option Nat :=
  if k = "rdap.org".toList then some 1000
  else if k = "iana".toList then some 1000
  else if k = ".ch".toList then some 1000
  else if k = ".li".toList then some 1000
  else if k = ".de".toList then some 1000
  else if k = "default".toList then some 1000
  else none

/-- The delay `_ensure_query_delay` computes for a server key: the
default, overridden by a direct entry, or for `direct_<tld>` keys by the
TLD entry. -/
def SERVER_DELAY_for (k : Str) : Nat :=
  match SERVER_DELAY_lookup k with
  | some v => v
  | none =>
    if k.take 7 = "direct_".toList then
      match SERVER_DELAY_lookup (k.drop 7) with
      | some v => v
      | none => 1000
    else 1000

structure ReqEvent where
  url : Str
  key : Option Str
  issue : Nat
  deriving DecidableEq, Repr

structure ClientState where
  last_query_time : List (Str × Nat)
  now : Nat
  trace : List ReqEvent
  deriving DecidableEq, Repr

inductive NetOutcome where
  | status (code : Nat) (location : Option Str)
  | timeout
  | connErr
  | otherErr
  deriving DecidableEq, Repr

structure NetResponse where
  outcome : NetOutcome
  latency : Nat

def Env := Nat → Str → NetResponse

def alookup (k : Str) : List (Str × β) → Option β
  | [] => none
  | (k1, v) :: rest => if k = k1 then some v else alookup k rest

/-- Dictionary write `self.last_query_time[key] = time.time()`. -/
def touch (k : Str) (st : ClientState) : ClientState :=
  { st with last_query_time := (k, st.now) :: st.last_query_time }

/-- `_ensure_query_delay` (rdap_client.py lines 468–495): if the key has
been queried before and not enough time has elapsed, sleep the
difference. -/
def ensure_query_delay (k : Str) (st : ClientState) : ClientState :=
  match alookup k st.last_query_time with
  | none => st
  | some last =>
    let delay := SERVER_DELAY_for k
    if st.now < last + delay then { st with now := last + delay } else st

/-- Issue one HTTP HEAD request: record the event and advance the clock
by the response latency. -/
def issueReq (env : Env) (key : Option Str) (url : Str) (st : ClientState) :
    NetResponse × ClientState :=
  let r := env st.trace.length url
  (r, { st with trace := st.trace ++ [⟨url, key, st.now⟩], now := st.now + r.latency })

/-- Status string of the three `except` handlers of `check_domain`. -/
def failStatus : NetOutcome → Str
  | .timeout => "timeout".toList
  | .connErr => "connection_error".toList
  | .otherErr => "error".toList
  | .status _ _ => "error".toList

/-- Partial probe outcome: (available, status, raw_code). -/
abbrev Classified := Bool × Str × Option Nat

/-- The generic-registry (rdap.org) handling of a received status code
(rdap_client.py lines 181–243): 302 with a Location header sleeps 0.5 s
and re-probes the target exactly once (classifying its code, or
reporting `redirect_error` if the re-probe itself fails); 302 without a
Location leaves the prepared `unknown` result; a plain 404 is
`no_rdap_service`; other codes go through the table. -/
def handleGenericOk (env : Env) (code : Nat) (loc : Option Str)
    (st : ClientState) : Classified × ClientState :=
  if code = 302 then
    match loc with
    | some redirectUrl =>
      let st1 := { st with now := st.now + 500 }
      let (r2, st2) := issueReq env none redirectUrl st1
      match r2.outcome with
      | .status code2 _ =>
        let p := classifyRedirectTarget code2
        ((p.1, p.2, some code2), st2)
      | _ => ((false, "redirect_error".toList, some code), st2)
    | none => ((false, "unknown".toList, some code), st)
  else if code = 404 then
    ((false, "no_rdap_service".toList, some code), st)
  else
    let p := classifyPair code
    ((p.1, p.2, some code), st)

/-- One physical probe of rdap.org for `domain`: rate-limit wait, HEAD
request, then either the classified outcome (with the line-170 and
`finally` bookkeeping updates) or the network failure. -/
def genericProbeOnce (env : Env) (domain : Str) (st : ClientState) :
    (Sum Classified NetOutcome) × ClientState :=
  let st1 := ensure_query_delay gKey st
  let (r, st2) := issueReq env (some gKey) (RDAP_ORG_URL_STEM ++ domain) st1
  match r.outcome with
  | .status code loc =>
    let st3 := touch gKey st2
    let (res, st4) := handleGenericOk env code loc st3
    (.inl res, touch gKey st4)
  | f => (.inr f, st2)

/-- The rdap.org probe with its retry recursion.  `retriesLeft` is
`max_retries - retry_count`; when it reaches 0 a failure is terminal
(rdap.org does not escalate further) and the failure classification is
returned.  Each unwinding level re-runs the `finally` bookkeeping. -/
def genericAttempts (env : Env) (domain : Str) :
    Nat → ClientState → Classified × ClientState
  | 0, st =>
    match genericProbeOnce env domain st with
    | (.inl res, st1) => (res, st1)
    | (.inr f, st1) => ((false, failStatus f, none), touch gKey st1)
  | n + 1, st =>
    match genericProbeOnce env domain st with
    | (.inl res, st1) => (res, st1)
    | (.inr _, st1) =>
      let st2 := { st1 with now := st1.now + 1000 }
      let (res, st3) := genericAttempts env domain n st2
      (res, touch gKey st3)

/-- One physical probe of a direct RDAP server. -/
def directProbeOnce (env : Env) (url key : Str) (st : ClientState) :
    (Sum Classified NetOutcome) × ClientState :=
  let st1 := ensure_query_delay key st
  let (r, st2) := issueReq env (some key) url st1
  match r.outcome with
  | .status code _ =>
    let p := classifyPair code
    (.inl (p.1, p.2, some code), touch key st2)
  | f => (.inr f, st2)

/-- The direct-route probe with its retry recursion and the single
escalation: when retries are exhausted (and `prefer_direct` is set,
which is the only way a direct route is selected), `check_domain` is
re-entered with the retry counter reset to 0 and `prefer_direct`
temporarily `False`, i.e. a full generic-registry attempt sequence; the
outer call's `finally` then re-stamps the direct key. -/
def directAttempts (env : Env) (domain url key : Str) (maxRetries : Nat) :
    Nat → ClientState → Classified × ClientState
  | 0, st =>
    match directProbeOnce env url key st with
    | (.inl res, st1) => (res, st1)
    | (.inr _, st1) =>
      let (res, st2) := genericAttempts env domain maxRetries st1
      (res, touch key st2)
  | n + 1, st =>
    match directProbeOnce env url key st with
    | (.inl res, st1) => (res, st1)
    | (.inr _, st1) =>
      let st2 := { st1 with now := st1.now + 1000 }
      let (res, st3) := directAttempts env domain url key maxRetries n st2
      (res, touch key st3)

structure Config where
  max_retries : Nat
  prefer_direct : Bool

structure ProbeResult where
  domain : Str
  available : Bool
  status : Str
  tld : Option Str
  raw_code : Option Nat
  deriving DecidableEq, Repr

/-- `RdapClient.check_domain` (rdap_client.py lines 98–333): lowercase,
validate (invalid input returns immediately, before any rate-limit
bookkeeping or network contact), extract the TLD, select the route, and
run the retry/escalate attempt sequence. -/
def check_domain (cfg : Config) (env : Env) (rawDomain : Str)
    (st : ClientState) : ProbeResult × ClientState :=
  let domain := lowerStr rawDomain
  if is_valid_domain domain then
    let tld := extract_tld domain
    match (if cfg.prefer_direct then alookup tld DIRECT_RDAP_SERVERS else none) with
    | some urlStem =>
      let key := "direct_".toList ++ tld
      let (res, st1) :=
        directAttempts env domain (urlStem ++ domain) key cfg.max_retries
          cfg.max_retries st
      ({ domain := domain, available := res.1, status := res.2.1,
         tld := some tld, raw_code := res.2.2 }, st1)
    | none =>
      let (res, st1) := genericAttempts env domain cfg.max_retries st
      ({ domain := domain, available := res.1, status := res.2.1,
         tld := some tld, raw_code := res.2.2 }, st1)
  else
    ({ domain := domain, available := false, status := "invalid_domain".toList,
       tld := none, raw_code := none }, st)

/-- Run `check_domain` over a list of inputs, threading the client
state, as the scan loop does. -/
def check_domains (cfg : Config) (env : Env) :
    List Str → ClientState → List ProbeResult × ClientState
  | [], st => ([], st)
  | d :: ds, st =>
    let (r, st1) := check_domain cfg env d st
    let (rs, st2) := check_domains cfg env ds st1
    (r :: rs, st2)

def initClientState : ClientState := ⟨[], 0, []⟩

/-- The host part of an URL of the form `https://host/...`. -/
def hostOf (url : Str) : Str := (url.drop 8).takeWhile (fun c => c ≠ '/')

/-! ## Scan orchestrator model (src/core/scanner.py) -/

structure ScanStats where
  total_checked : Nat
  available : Nat
  registered : Nat
  errors : Nat
  rate_limited : Nat
  tld_stats : List (Str × Nat × Nat)
  deriving DecidableEq, Repr

/-- The per-TLD breakdown update at the end of `_update_stats`: a no-op
when the result carries no TLD or an unconfigured one. -/
def bumpTldStats : Option Str → Bool → List (Str × Nat × Nat) → List (Str × Nat × Nat)
  | none, _, m => m
  | some t, av, m =>
    m.map (fun e =>
      if e.1 = t then (e.1, e.2.1 + 1, if av then e.2.2 + 1 else e.2.2) else e)

/-- `DomainScanner._update_stats` (scanner.py lines 221–247). -/
def update_stats (r : ProbeResult) (s : ScanStats) : ScanStats :=
  let s1 := { s with total_checked := s.total_checked + 1 }
  let s2 :=
    if r.available then { s1 with available := s1.available + 1 }
    else if r.status = "registered".toList then
      { s1 with registered := s1.registered + 1 }
    else if r.status = "rate_limited".toList then
      { s1 with rate_limited := s1.rate_limited + 1 }
    else { s1 with errors := s1.errors + 1 }
  { s2 with tld_stats := bumpTldStats r.tld r.available s2.tld_stats }

/-! ### Completion control flow of `DomainScanner.run` / `_scan_domains`

The scan loop is driven by the generator's lazy sequence; a
`KeyboardInterrupt` can arrive at any point inside the loop and an
exception can escape the generator itself.  `GenStep` presents one
candidate-level step of that interaction:
  - `yield b none` — the generator yields `b` and all TLD probes finish;
  - `yield b (some k)` — the generator yields `b` and a
    `KeyboardInterrupt` hits while processing TLD number `k`;
  - `genFail` — the next pull from the generator raises;
  - `interrupt` — a `KeyboardInterrupt` hits at the loop boundary.
`run_scan` mirrors `run`: the loop, the two `except` handlers (each
calling `_finalize_scan`), the `_finalize_scan()` ending `_scan_domains`
on normal exhaustion, and the `finally: self.close()`. -/

inductive FinalTag where
  | normal
  | interrupted
  | errored
  deriving DecidableEq, Repr

inductive ScanAct where
  | probe (domain : Str)
  | finalize (tag : FinalTag)
  | closeResources
  deriving DecidableEq, Repr

inductive ScanCause where
  | interrupt
  | genError
  deriving DecidableEq, Repr

inductive GenStep where
  | yield (base : Str) (interruptAt : Option Nat)
  | genFail
  | interrupt
  deriving DecidableEq, Repr

def scanCandidate (tlds : List Str) : GenStep → List ScanAct × Option ScanCause
  | .yield b none => (tlds.map (fun t => .probe (b ++ t)), none)
  | .yield b (some k) => ((tlds.take k).map (fun t => .probe (b ++ t)), some .interrupt)
  | .genFail => ([], some .genError)
  | .interrupt => ([], some .interrupt)

def scanLoop (tlds : List Str) : List GenStep → List ScanAct × Option ScanCause
  | [] => ([], none)
  | s :: rest =>
    match scanCandidate tlds s with
    | (acts, some c) => (acts, some c)
    | (acts, none) =>
      (acts ++ (scanLoop tlds rest).1, (scanLoop tlds rest).2)

/-- `DomainScanner.run` around `_scan_domains` (scanner.py lines
115–219): normal exhaustion finalizes at the end of `_scan_domains`; a
`KeyboardInterrupt` propagates to `run`'s first handler
(`_finalize_scan(interrupted=True)`); any other exception to the second
(`_finalize_scan(error=...)`); the `finally` always closes the RDAP
session and the result buffer. -/
def run_scan (tlds : List Str) (steps : List GenStep) : List ScanAct :=
  match scanLoop tlds steps with
  | (acts, none) => acts ++ [.finalize .normal, .closeResources]
  | (acts, some .interrupt) => acts ++ [.finalize .interrupted, .closeResources]
  | (acts, some .genError) => acts ++ [.finalize .errored, .closeResources]

def isFinalizeAct : ScanAct → Bool
  | .finalize _ => true
  | _ => false

def isCloseAct : ScanAct → Bool
  | .closeResources => true
  | _ => false

/-! ## Derived notions used by the statements -/

/-- Issue times of the requests bookkept under rate-limit key `k`, in
trace order. -/
def keyTimes (k : Str) (tr : List ReqEvent) : List Nat :=
  (tr.filter (fun e => decide (e.key = some k))).map (fun e => e.issue)

/-- Per-key rate-limit spacing: on each bookkeeping key, each request is
issued at least 1000 ms (the configured minimum interval) after every
earlier request on that key. -/
def spacedTrace (tr : List ReqEvent) : Prop :=
  ∀ k, (keyTimes k tr).Pairwise (fun a b => a + 1000 ≤ b)

/-- The trace is chronological. -/
def chronTrace (tr : List ReqEvent) : Prop :=
  tr.Pairwise (fun a b => a.issue ≤ b.issue)

def issuesBounded (st : ClientState) : Prop :=
  ∀ e ∈ st.trace, e.issue ≤ st.now

def lastBounded (st : ClientState) : Prop :=
  ∀ k u, alookup k st.last_query_time = some u → u ≤ st.now

/-- The bookkeeping entry for `k` is at least as late as every request
issued under `k` (true between probes; temporarily broken for the key
being retried, because the `finally` update only runs on unwind). -/
def coveredKey (k : Str) (st : ClientState) : Prop :=
  ∀ t ∈ keyTimes k st.trace, ∃ u, alookup k st.last_query_time = some u ∧ t ≤ u

/-- Either the key is covered by its bookkeeping entry, or 1000 ms have
already passed since every request on it (the state after the 1 s retry
sleep). -/
def okKey (k : Str) (st : ClientState) : Prop :=
  coveredKey k st ∨ ∀ t ∈ keyTimes k st.trace, t + 1000 ≤ st.now

def baseInv (st : ClientState) : Prop :=
  chronTrace st.trace ∧ spacedTrace st.trace ∧ issuesBounded st ∧ lastBounded st

def clientInv (st : ClientState) : Prop :=
  baseInv st ∧ ∀ k, coveredKey k st

/-- A network outcome that raises in `check_domain` (timeout, connection
error, or other exception). -/
def isFailOutcome : NetOutcome → Bool
  | .status _ _ => false
  | _ => true

/-! ## Helper lemmas -/

theorem ensure_query_delay_trace (k : Str) (st : ClientState) :
    (ensure_query_delay k st).trace = st.trace := by
  unfold ensure_query_delay
  cases alookup k st.last_query_time with
  | none => rfl
  | some u => dsimp only; split <;> rfl

theorem ensure_query_delay_last (k : Str) (st : ClientState) :
    (ensure_query_delay k st).last_query_time = st.last_query_time := by
  unfold ensure_query_delay
  cases alookup k st.last_query_time with
  | none => rfl
  | some u => dsimp only; split <;> rfl

theorem ensure_query_delay_now_ge (k : Str) (st : ClientState) :
    st.now ≤ (ensure_query_delay k st).now := by
  unfold ensure_query_delay
  cases alookup k st.last_query_time with
  | none => exact le_refl _
  | some u => dsimp only; split
              · dsimp only; omega
              · exact le_refl _

theorem SERVER_DELAY_lookup_val (k : Str) (v : Nat)
    (h : SERVER_DELAY_lookup k = some v) : v = 1000 := by
  unfold SERVER_DELAY_lookup at h
  split_ifs at h <;> simp_all

theorem SERVER_DELAY_for_eq (k : Str) : SERVER_DELAY_for k = 1000 := by
  unfold SERVER_DELAY_for
  split
  case h_1 v heq => exact SERVER_DELAY_lookup_val _ _ heq
  case h_2 heq =>
    split
    · split
      case h_1 w heq2 => exact SERVER_DELAY_lookup_val _ _ heq2
      case h_2 => rfl
    · rfl

theorem ensure_query_delay_now_ge_entry (k : Str) (st : ClientState) (u : Nat)
    (h : alookup k st.last_query_time = some u) :
    u + 1000 ≤ (ensure_query_delay k st).now := by
  unfold ensure_query_delay
  split
  case h_1 heq => rw [h] at heq; cases heq
  case h_2 last heq =>
    rw [h] at heq
    injection heq with heq2
    subst heq2
    rw [SERVER_DELAY_for_eq]
    by_cases hlt : st.now < u + 1000
    · rw [if_pos hlt]
    · rw [if_neg hlt]; omega

theorem scanCandidate_probes (tlds : List Str) (s : GenStep) :
    ∀ a ∈ (scanCandidate tlds s).1, isFinalizeAct a = false ∧ isCloseAct a = false := by
  cases s with
  | yield b i =>
    cases i with
    | none =>
      intro a ha
      simp only [scanCandidate, List.mem_map] at ha
      rcases ha with ⟨t, _, rfl⟩
      exact ⟨rfl, rfl⟩
    | some j =>
      intro a ha
      simp only [scanCandidate, List.mem_map] at ha
      rcases ha with ⟨t, _, rfl⟩
      exact ⟨rfl, rfl⟩
  | genFail => intro a ha; simp [scanCandidate] at ha
  | interrupt => intro a ha; simp [scanCandidate] at ha

theorem scanLoop_probes_only (tlds : List Str) (steps : List GenStep) :
    ∀ a ∈ (scanLoop tlds steps).1, isFinalizeAct a = false ∧ isCloseAct a = false := by
  induction steps with
  | nil => intro a ha; simp [scanLoop] at ha
  | cons s rest ih =>
    intro a ha
    unfold scanLoop at ha
    rcases hsc : scanCandidate tlds s with ⟨acts, c⟩
    rw [hsc] at ha
    have hacts := scanCandidate_probes tlds s
    rw [hsc] at hacts
    cases c with
    | some c0 => exact hacts a ha
    | none =>
      simp only [List.mem_append] at ha
      rcases ha with ha | ha
      · exact hacts a ha
      · exact ih a ha

/-! ## Claim C1 -/

/-- C1 counterexample: the claim's residual clause ("every other status
code yields the unknown/unsupported kind") fails at status 400, which the
table maps to the distinct kind invalid_request (and at 302, mapped to
redirect); moreover 403/500/503 map to three pairwise distinct status
kinds, not one shared transient-server-error entry. -/
theorem C1_counterexample :
    classifyPair 400 = (false, "invalid_request".toList) ∧
    "invalid_request".toList ≠ "unknown_status_code".toList ∧
    classifyPair 302 = (false, "redirect".toList) ∧
    (classifyPair 403).2 ≠ (classifyPair 500).2 ∧
    (classifyPair 500).2 ≠ (classifyPair 503).2 ∧
    (classifyPair 403).2 ≠ (classifyPair 503).2 := by
  decide

/-- C1 (amended): the fixed status-to-outcome table maps 200 and 401 to
registered (available = false), 404 to available (available = true), 429
to rate_limited, and 403, 500, 503 to the three distinct transient-error
kinds forbidden, server_error and service_unavailable (all
available = false); the table additionally contains 400 ↦
invalid_request and 302 ↦ redirect; every status code outside the table
yields the unknown_status_code kind. -/
theorem C1_classify_table :
    (classifyPair 200 = (false, "registered".toList) ∧
     classifyPair 401 = (false, "registered".toList) ∧
     classifyPair 404 = (true, "available".toList) ∧
     classifyPair 429 = (false, "rate_limited".toList) ∧
     classifyPair 403 = (false, "forbidden".toList) ∧
     classifyPair 500 = (false, "server_error".toList) ∧
     classifyPair 503 = (false, "service_unavailable".toList) ∧
     classifyPair 400 = (false, "invalid_request".toList) ∧
     classifyPair 302 = (false, "redirect".toList)) ∧
    ∀ code : Nat,
      code ∉ ([200, 401, 404, 400, 429, 403, 500, 503, 302] : List Nat) →
      classifyPair code = (false, "unknown_status_code".toList) := by
  refine ⟨by decide, ?_⟩
  intro code hc
  simp only [List.mem_cons, List.not_mem_nil, or_false, not_or] at hc
  obtain ⟨h1, h2, h3, h4, h5, h6, h7, h8, h9⟩ := hc
  simp [classifyPair, STATUS_CODES, h1, h2, h3, h4, h5, h6, h7, h8, h9]

/-- C1 witness: status 418 is outside the table and classifies as
unknown_status_code. -/
theorem C1_classify_table_witness :
    classifyPair 418 = (false, "unknown_status_code".toList) :=
  C1_classify_table.2 418 (by decide)

/-! ## Claim C9 -/

/-- C9: every processed ProbeResult increments the checked counter by
exactly 1 and exactly one of the four outcome counters (available,
registered, rate_limited, errors) by exactly 1, leaving the other three
outcome counters unchanged. -/
theorem C9_update_stats_exactly_one (r : ProbeResult) (s : ScanStats) :
    (update_stats r s).total_checked = s.total_checked + 1 ∧
    (((update_stats r s).available = s.available + 1 ∧
      (update_stats r s).registered = s.registered ∧
      (update_stats r s).rate_limited = s.rate_limited ∧
      (update_stats r s).errors = s.errors) ∨
     ((update_stats r s).available = s.available ∧
      (update_stats r s).registered = s.registered + 1 ∧
      (update_stats r s).rate_limited = s.rate_limited ∧
      (update_stats r s).errors = s.errors) ∨
     ((update_stats r s).available = s.available ∧
      (update_stats r s).registered = s.registered ∧
      (update_stats r s).rate_limited = s.rate_limited + 1 ∧
      (update_stats r s).errors = s.errors) ∨
     ((update_stats r s).available = s.available ∧
      (update_stats r s).registered = s.registered ∧
      (update_stats r s).rate_limited = s.rate_limited ∧
      (update_stats r s).errors = s.errors + 1)) := by
  simp only [update_stats]
  split_ifs <;> simp

/-! ## Claim C8 -/

/-- C8: for every scan session (every possible interaction trace with
the generator and the interrupt source — in particular normal exhaustion
of the candidate sequence, an external interrupt at any point, and an
unrecovered generator exception), the finalize routine runs exactly
once, and the resource release (RDAP session and result buffer close)
runs exactly once. -/
theorem C8_finalize_exactly_once (tlds : List Str) (steps : List GenStep) :
    ((run_scan tlds steps).filter isFinalizeAct).length = 1 ∧
    ((run_scan tlds steps).filter isCloseAct).length = 1 := by
  have hp := scanLoop_probes_only tlds steps
  unfold run_scan
  rcases hsc : scanLoop tlds steps with ⟨acts, c⟩
  rw [hsc] at hp
  have hf : acts.filter isFinalizeAct = [] := by
    rw [List.filter_eq_nil_iff]
    intro a ha
    simp [(hp a ha).1]
  have hc : acts.filter isCloseAct = [] := by
    rw [List.filter_eq_nil_iff]
    intro a ha
    simp [(hp a ha).2]
  cases c with
  | none => simp [List.filter_append, hf, hc, isFinalizeAct, isCloseAct]
  | some c0 =>
    cases c0 <;> simp [List.filter_append, hf, hc, isFinalizeAct, isCloseAct]

/-! ## Claim C2 -/

/-- C2: a probe routed to the generic registry (rdap.org) answered with
HTTP 404 and no redirect yields statusKind no_rdap_service with
available = false — never the available classification. -/
theorem C2_generic_404_no_rdap (cfg : Config) (env : Env) (raw : Str)
    (st : ClientState) (L : Nat)
    (hv : is_valid_domain (lowerStr raw) = true)
    (hroute : (if cfg.prefer_direct then
        alookup (extract_tld (lowerStr raw)) DIRECT_RDAP_SERVERS else none) = none)
    (hresp : env st.trace.length (RDAP_ORG_URL_STEM ++ lowerStr raw) =
      ⟨.status 404 none, L⟩) :
    (check_domain cfg env raw st).1.status = "no_rdap_service".toList ∧
    (check_domain cfg env raw st).1.available = false := by
  simp only [check_domain, hv, if_true]
  rw [hroute]
  rcases cfg.max_retries with _ | n <;>
    (simp only [genericAttempts, genericProbeOnce, issueReq, ensure_query_delay_trace]
     rw [hresp]
     simp [handleGenericOk])

/-- C2 witness: a concrete generic-registry probe answered 404. -/
theorem C2_generic_404_no_rdap_witness :
    (check_domain ⟨2, false⟩ (fun _ _ => ⟨.status 404 none, 0⟩) "a.xyz".toList
        initClientState).1.status = "no_rdap_service".toList ∧
    (check_domain ⟨2, false⟩ (fun _ _ => ⟨.status 404 none, 0⟩) "a.xyz".toList
        initClientState).1.available = false :=
  C2_generic_404_no_rdap ⟨2, false⟩ (fun _ _ => ⟨.status 404 none, 0⟩)
    "a.xyz".toList initClientState 0 (by decide) rfl rfl

/-- Agreement of the redirect-target classification with the plain
table classification. -/
theorem classifyRedirectTarget_eq_classifyPair (code : Nat) :
    classifyRedirectTarget code = classifyPair code := by
  by_cases h : code = 404
  · subst h; decide
  · unfold classifyRedirectTarget; rw [if_neg h]

/-! ## Claim C3 -/

/-- C3: a generic-registry probe answered HTTP 302 with a Location
header X re-probes X exactly once (the final trace grows by exactly the
rdap.org request and one request to X, no recursive chain), classifies
the second response with the same status-to-outcome table
(`classifyRedirectTarget` agrees with `classifyPair` on every code —
`classifyPair` being exactly what a direct probe applies in
`directProbeOnce`), and returns that second classification. -/
theorem C3_redirect_once (cfg : Config) (env : Env) (raw X : Str)
    (st : ClientState) (code L1 L2 : Nat) (loc2 : Option Str)
    (hv : is_valid_domain (lowerStr raw) = true)
    (hroute : (if cfg.prefer_direct then
        alookup (extract_tld (lowerStr raw)) DIRECT_RDAP_SERVERS else none) = none)
    (h1 : env st.trace.length (RDAP_ORG_URL_STEM ++ lowerStr raw) =
      ⟨.status 302 (some X), L1⟩)
    (h2 : env (st.trace.length + 1) X = ⟨.status code loc2, L2⟩) :
    ((check_domain cfg env raw st).1.available,
      (check_domain cfg env raw st).1.status) = classifyPair code ∧
    classifyRedirectTarget code = classifyPair code ∧
    (check_domain cfg env raw st).1.raw_code = some code ∧
    (check_domain cfg env raw st).2.trace.length = st.trace.length + 2 ∧
    ((check_domain cfg env raw st).2.trace.drop st.trace.length).map (fun e => e.url) =
      [RDAP_ORG_URL_STEM ++ lowerStr raw, X] := by
  simp only [check_domain, hv, if_true]
  rw [hroute]
  rcases cfg.max_retries with _ | n <;>
    (simp only [genericAttempts, genericProbeOnce, issueReq, ensure_query_delay_trace,
       touch, handleGenericOk, List.length_append]
     rw [h1]
     simp only [List.length_append, ensure_query_delay_trace, List.length_cons,
       List.length_nil]
     rw [h2]
     simp [classifyRedirectTarget_eq_classifyPair, List.drop_left,
       List.append_assoc])

/-- C3 witness: a concrete 302-with-Location probe whose redirect target
answers 200, classified as the direct table classifies 200. -/
theorem C3_redirect_once_witness :
    ((check_domain ⟨2, false⟩
        (fun n _ => if n = 0 then
          ⟨.status 302 (some "https://rdap.nic.xyz/domain/a.xyz".toList), 3⟩
         else ⟨.status 200 none, 5⟩) "a.xyz".toList initClientState).1.available,
      (check_domain ⟨2, false⟩
        (fun n _ => if n = 0 then
          ⟨.status 302 (some "https://rdap.nic.xyz/domain/a.xyz".toList), 3⟩
         else ⟨.status 200 none, 5⟩) "a.xyz".toList initClientState).1.status) =
      classifyPair 200 ∧
    classifyRedirectTarget 200 = classifyPair 200 ∧
    (check_domain ⟨2, false⟩
        (fun n _ => if n = 0 then
          ⟨.status 302 (some "https://rdap.nic.xyz/domain/a.xyz".toList), 3⟩
         else ⟨.status 200 none, 5⟩) "a.xyz".toList initClientState).1.raw_code =
      some 200 ∧
    (check_domain ⟨2, false⟩
        (fun n _ => if n = 0 then
          ⟨.status 302 (some "https://rdap.nic.xyz/domain/a.xyz".toList), 3⟩
         else ⟨.status 200 none, 5⟩) "a.xyz".toList
        initClientState).2.trace.length = initClientState.trace.length + 2 ∧
    ((check_domain ⟨2, false⟩
        (fun n _ => if n = 0 then
          ⟨.status 302 (some "https://rdap.nic.xyz/domain/a.xyz".toList), 3⟩
         else ⟨.status 200 none, 5⟩) "a.xyz".toList
        initClientState).2.trace.drop initClientState.trace.length).map
      (fun e => e.url) =
      [RDAP_ORG_URL_STEM ++ lowerStr "a.xyz".toList,
       "https://rdap.nic.xyz/domain/a.xyz".toList] :=
  C3_redirect_once ⟨2, false⟩
    (fun n _ => if n = 0 then
      ⟨.status 302 (some "https://rdap.nic.xyz/domain/a.xyz".toList), 3⟩
     else ⟨.status 200 none, 5⟩) "a.xyz".toList
    "https://rdap.nic.xyz/domain/a.xyz".toList initClientState 200 3 5 none
    (by decide) rfl rfl rfl

/-! ## Claim C10 -/

/-- C10 counterexample: the claim as stated fails at the concrete input
U+212A (KELVIN SIGN) followed by ".ch".  That input does not match the
resolver validation regex (the Kelvin sign is outside its charset),
yet `check_domain` first applies `str.lower()`, which maps U+212A to
the ASCII letter k; the lowered string "k.ch" validates, so the
resolver issues a network request and mutates the last-query-time map
instead of returning an invalid_domain result. -/
theorem C10_counterexample :
    is_valid_domain (Char.ofNat 0x212A :: ".ch".toList) = false ∧
    lowerStr (Char.ofNat 0x212A :: ".ch".toList) = "k.ch".toList ∧
    (check_domain ⟨2, true⟩ (fun _ _ => ⟨.status 200 none, 0⟩)
        (Char.ofNat 0x212A :: ".ch".toList) initClientState).1.status =
      "registered".toList ∧
    (check_domain ⟨2, true⟩ (fun _ _ => ⟨.status 200 none, 0⟩)
        (Char.ofNat 0x212A :: ".ch".toList) initClientState).2.trace.length = 1 ∧
    (check_domain ⟨2, true⟩ (fun _ _ => ⟨.status 200 none, 0⟩)
        (Char.ofNat 0x212A :: ".ch".toList) initClientState).2.last_query_time ≠
      initClientState.last_query_time := by
  decide

/-- C10 (amended): for every input string whose lowercased form does
not match the resolver full-domain validation pattern — the check the
source actually performs is `_is_valid_domain(domain.lower())` —
`check_domain` returns a ProbeResult with status invalid_domain and
available = false, issues no network request, and leaves the client
state — in particular the last-query-time map — completely
unchanged. -/
theorem C10_invalid_no_request (cfg : Config) (env : Env) (raw : Str)
    (st : ClientState) (h : is_valid_domain (lowerStr raw) = false) :
    (check_domain cfg env raw st).1.status = "invalid_domain".toList ∧
    (check_domain cfg env raw st).1.available = false ∧
    (check_domain cfg env raw st).2 = st ∧
    (check_domain cfg env raw st).2.trace = st.trace ∧
    (check_domain cfg env raw st).2.last_query_time = st.last_query_time := by
  simp [check_domain, h]

/-- C10 witness: a concrete input (underscore) whose lowered form fails
validation. -/
theorem C10_invalid_no_request_witness :
    (check_domain ⟨2, true⟩ (fun _ _ => ⟨.status 200 none, 0⟩) "ab_c.com".toList
        initClientState).1.status = "invalid_domain".toList ∧
    (check_domain ⟨2, true⟩ (fun _ _ => ⟨.status 200 none, 0⟩) "ab_c.com".toList
        initClientState).1.available = false ∧
    (check_domain ⟨2, true⟩ (fun _ _ => ⟨.status 200 none, 0⟩) "ab_c.com".toList
        initClientState).2 = initClientState ∧
    (check_domain ⟨2, true⟩ (fun _ _ => ⟨.status 200 none, 0⟩) "ab_c.com".toList
        initClientState).2.trace = initClientState.trace ∧
    (check_domain ⟨2, true⟩ (fun _ _ => ⟨.status 200 none, 0⟩) "ab_c.com".toList
        initClientState).2.last_query_time = initClientState.last_query_time :=
  C10_invalid_no_request ⟨2, true⟩ (fun _ _ => ⟨.status 200 none, 0⟩)
    "ab_c.com".toList initClientState (by decide)

/-! ## Claim C6: generator validity and deduplication -/

theorem from_file_step_some (seen : List Str) (line d : Str) (seen1 : List Str)
    (h : from_file_step seen line = (some d, seen1)) :
    is_valid_domain_base d = true ∧ d ∉ seen ∧ seen1 = d :: seen ∧
    d = lowerStr (pyStrip line) := by
  simp only [from_file_step] at h
  split_ifs at h with h1 h2 h3 h4 <;> simp_all
  all_goals (rw [← h.1]; exact h.2.symm)

theorem from_file_step_none (seen : List Str) (line : Str)
    (h : (from_file_step seen line).1 = none) :
    (from_file_step seen line).2 = seen := by
  simp only [from_file_step] at *
  split_ifs at h <;> simp_all

theorem from_function_step_some (seen : List Str) (v d : Str) (seen1 : List Str)
    (h : from_function_step seen v = (some d, seen1)) :
    is_valid_domain_base d = true ∧ d ∉ seen ∧ seen1 = d :: seen ∧
    d = lowerStr (pyStrip v) := by
  simp only [from_function_step] at h
  split_ifs at h with h1 h2 <;> simp_all
  all_goals (rw [← h.1]; exact h.2.symm)

theorem from_function_step_none (seen : List Str) (v : Str)
    (h : (from_function_step seen v).1 = none) :
    (from_function_step seen v).2 = seen := by
  simp only [from_function_step] at *
  split_ifs at h <;> simp_all

theorem runGen_spec (step : List Str → Str → Option Str × List Str)
    (hsome : ∀ seen x d seen1, step seen x = (some d, seen1) →
      is_valid_domain_base d = true ∧ d ∉ seen ∧ seen1 = d :: seen ∧
      d = lowerStr (pyStrip x))
    (hnone : ∀ seen x, (step seen x).1 = none → (step seen x).2 = seen) :
    ∀ (xs : List Str) (seen : List Str),
      (∀ d ∈ (runGen step xs seen).1, is_valid_domain_base d = true) ∧
      (runGen step xs seen).1.Nodup ∧
      (∀ d ∈ (runGen step xs seen).1, d ∉ seen) ∧
      (∀ d ∈ seen, d ∈ (runGen step xs seen).2) ∧
      (∀ d ∈ (runGen step xs seen).1, d ∈ (runGen step xs seen).2) ∧
      (∀ d ∈ (runGen step xs seen).1, ∃ x ∈ xs, d = lowerStr (pyStrip x)) := by
  intro xs
  induction xs with
  | nil =>
    intro seen
    simp [runGen]
  | cons x rest ih =>
    intro seen
    rcases hstep : step seen x with ⟨o, seen1⟩
    rcases o with _ | d
    · have hseen1 : seen1 = seen := by
        have h2 := hnone seen x
        rw [hstep] at h2
        exact h2 rfl
      have hrun : runGen step (x :: rest) seen = runGen step rest seen := by
        rw [hseen1] at hstep
        rcases h3 : runGen step rest seen with ⟨out, seen2⟩
        simp [runGen, hstep, h3]
      rw [hrun]
      obtain ⟨a, b, c, d2, e, f⟩ := ih seen
      exact ⟨a, b, c, d2, e, fun d hd => by
        obtain ⟨y, hy, hyd⟩ := f d hd; exact ⟨y, List.mem_cons_of_mem x hy, hyd⟩⟩
    · obtain ⟨hval, hnotin, hseen1, hnorm⟩ := hsome seen x d seen1 hstep
      subst hseen1
      have hrun : runGen step (x :: rest) seen =
          (d :: (runGen step rest (d :: seen)).1, (runGen step rest (d :: seen)).2) := by
        rcases h3 : runGen step rest (d :: seen) with ⟨out, seen2⟩
        simp [runGen, hstep, h3]
      rw [hrun]
      obtain ⟨a, b, c, d2, e, f⟩ := ih (d :: seen)
      refine ⟨?_, ?_, ?_, ?_, ?_, ?_⟩
      · intro q hq
        rcases List.mem_cons.mp hq with rfl | hq2
        · exact hval
        · exact a q hq2
      · refine List.nodup_cons.mpr ⟨?_, b⟩
        intro hd
        exact absurd (List.mem_cons_self d seen) (c d hd)
      · intro q hq
        rcases List.mem_cons.mp hq with rfl | hq2
        · exact hnotin
        · intro hqseen
          exact absurd (List.mem_cons_of_mem d hqseen) (c q hq2)
      · intro q hq
        exact d2 q (List.mem_cons_of_mem d hq)
      · intro q hq
        rcases List.mem_cons.mp hq with rfl | hq2
        · exact d2 q (List.mem_cons_self q seen)
        · exact e q hq2
      · intro q hq
        rcases List.mem_cons.mp hq with rfl | hq2
        · exact ⟨x, List.mem_cons_self x rest, hnorm⟩
        · obtain ⟨y, hy, hyd⟩ := f q hq2
          exact ⟨y, List.mem_cons_of_mem x hy, hyd⟩

theorem isBaseChar_of_isAlnumChar (c : Char) (h : isAlnumChar c = true) :
    isBaseChar c = true := by
  simp [isBaseChar, h]

theorem isAlnumChar_ne_hyphen (c : Char) (h : isAlnumChar c = true) : c ≠ '-' := by
  intro hc; subst hc; exact absurd h (by decide)

theorem isBaseChar_ne_underscore (c : Char) (h : isBaseChar c = true) : c ≠ '_' := by
  intro hc; subst hc; exact absurd h (by decide)

theorem valid_base_props (d : Str) (h : is_valid_domain_base d = true) :
    d ≠ [] ∧ d.length ≤ 63 ∧ d.all isBaseChar = true ∧
    d.head? ≠ some '-' ∧ d.getLast? ≠ some '-' ∧ '_' ∉ d := by
  unfold is_valid_domain_base at h
  split_ifs at h with h1 h2
  have hne : d ≠ [] := by
    intro hd; subst hd; exact h1 rfl
  have hlen : d.length ≤ 63 := by
    simp [MAX_DOMAIN_LENGTH] at h2; omega
  refine ⟨hne, hlen, ?_⟩
  rcases d with _ | ⟨c, rest⟩
  · exact absurd rfl hne
  · rcases rest with _ | ⟨c2, rest2⟩
    · simp only [domainBaseRegexMatch] at h
      refine ⟨by simp [isBaseChar_of_isAlnumChar c h], ?_, ?_, ?_⟩
      · simp only [List.head?_cons]
        intro hc; injection hc with hc
        exact isAlnumChar_ne_hyphen c h hc
      · simp only [List.getLast?_singleton]
        intro hc; injection hc with hc
        exact isAlnumChar_ne_hyphen c h hc
      · intro hmem
        rcases List.mem_singleton.mp hmem with rfl
        exact absurd h (by decide)
    · simp only [domainBaseRegexMatch] at h
      rcases hl : (c2 :: rest2).getLast? with _ | lastc
      · simp [hl] at h
      · rw [hl] at h
        simp only [Bool.and_eq_true, decide_eq_true_eq] at h
        obtain ⟨hc, ⟨hlast, hall⟩, hlen61⟩ := h
        have hx : ∀ x ∈ c2 :: rest2, isBaseChar x = true := by
          have hne2 : (c2 :: rest2) ≠ [] := by simp
          have heq := List.dropLast_append_getLast hne2
          have hlast_eq : (c2 :: rest2).getLast hne2 = lastc := by
            have := List.getLast?_eq_getLast (c2 :: rest2) hne2
            rw [hl] at this; injection this with this; exact this.symm
          intro x hxm
          rw [← heq] at hxm
          rcases List.mem_append.mp hxm with hx1 | hx2
          · exact (List.all_eq_true.mp hall) x hx1
          · rcases List.mem_singleton.mp hx2 with rfl
            rw [hlast_eq]
            exact isBaseChar_of_isAlnumChar lastc hlast
        refine ⟨?_, ?_, ?_, ?_⟩
        · rw [List.all_eq_true]
          intro x hxm
          rcases List.mem_cons.mp hxm with rfl | hxm2
          · exact isBaseChar_of_isAlnumChar x hc
          · exact hx x hxm2
        · simp only [List.head?_cons]
          intro hcc; injection hcc with hcc
          exact isAlnumChar_ne_hyphen c hc hcc
        · rw [List.getLast?_cons_cons, hl]
          intro hcc; injection hcc with hcc
          exact isAlnumChar_ne_hyphen lastc hlast hcc
        · intro hmem
          rcases List.mem_cons.mp hmem with heq2 | hmem2
          · cases heq2; exact absurd hc (by decide)
          · exact isBaseChar_ne_underscore '_' (hx '_' hmem2) rfl

/-- C6: every value yielded by the generator pipeline — across
`from_file` followed by `from_function` on the same generator instance,
from any prior dedup state — is a valid candidate base (validator true;
nonempty; length at most 63; characters in [a-zA-Z0-9-]; not starting
or ending with a hyphen; no underscore), is the normalization
(strip+lowercase) of some input, and each unique normalized value is
yielded at most once across both phases (the combined output has no
duplicates and avoids everything already yielded). -/
theorem C6_generator_valid_dedup (lines vals seen0 : List Str) :
    (∀ d ∈ (from_file_lines lines seen0).1 ++
        (from_function_vals vals (from_file_lines lines seen0).2).1,
      is_valid_domain_base d = true ∧ d ≠ [] ∧ d.length ≤ 63 ∧
      d.all isBaseChar = true ∧ d.head? ≠ some '-' ∧ d.getLast? ≠ some '-' ∧
      '_' ∉ d ∧
      ((∃ x ∈ lines, d = lowerStr (pyStrip x)) ∨
       (∃ x ∈ vals, d = lowerStr (pyStrip x)))) ∧
    ((from_file_lines lines seen0).1 ++
      (from_function_vals vals (from_file_lines lines seen0).2).1).Nodup ∧
    (∀ d ∈ (from_file_lines lines seen0).1 ++
        (from_function_vals vals (from_file_lines lines seen0).2).1,
      d ∉ seen0) := by
  have hfile := runGen_spec from_file_step
    (fun seen x d seen1 h => from_file_step_some seen x d seen1 h)
    (fun seen x h => from_file_step_none seen x h) lines seen0
  have hfun := runGen_spec from_function_step
    (fun seen x d seen1 h => from_function_step_some seen x d seen1 h)
    (fun seen x h => from_function_step_none seen x h) vals
    (from_file_lines lines seen0).2
  obtain ⟨a1, b1, c1, d1, e1, f1⟩ := hfile
  obtain ⟨a2, b2, c2, d2, e2, f2⟩ := hfun
  have key : ∀ d ∈ (from_file_lines lines seen0).1,
      d ∈ (from_file_lines lines seen0).2 := e1
  refine ⟨?_, ?_, ?_⟩
  · intro d hd
    have hv : is_valid_domain_base d = true := by
      rcases List.mem_append.mp hd with h | h
      · exact a1 d h
      · exact a2 d h
    obtain ⟨p1, p2, p3, p4, p5, p6⟩ := valid_base_props d hv
    refine ⟨hv, p1, p2, p3, p4, p5, p6, ?_⟩
    rcases List.mem_append.mp hd with h | h
    · exact Or.inl (f1 d h)
    · exact Or.inr (f2 d h)
  · rw [List.nodup_append]
    refine ⟨b1, b2, ?_⟩
    intro d hd1 hd2
    exact absurd (key d hd1) (c2 d hd2)
  · intro d hd
    rcases List.mem_append.mp hd with h | h
    · exact c1 d h
    · intro hseen0
      exact absurd (d1 d hseen0) (c2 d h)

/-- C6 witness: a concrete mixed input with duplicates, comments and
blank-ish entries; the candidate "example" is yielded with all the
claimed properties. -/
theorem C6_generator_valid_dedup_witness :
    is_valid_domain_base "example".toList = true ∧ "example".toList ≠ [] ∧
    ("example".toList : Str).length ≤ 63 ∧
    ("example".toList : Str).all isBaseChar = true ∧
    ("example".toList : Str).head? ≠ some '-' ∧
    ("example".toList : Str).getLast? ≠ some '-' ∧
    '_' ∉ "example".toList ∧
    ((∃ x ∈ ["  Example ".toList, "example".toList, "# note".toList,
        "ab".toList], "example".toList = lowerStr (pyStrip x)) ∨
     (∃ x ∈ ["EXAMPLE".toList, "zz-1".toList],
        "example".toList = lowerStr (pyStrip x))) :=
  (C6_generator_valid_dedup
    ["  Example ".toList, "example".toList, "# note".toList, "ab".toList]
    ["EXAMPLE".toList, "zz-1".toList] []).1 "example".toList (by decide)

/-! ## Claim C7 -/

/-- C7 counterexample: a file whose bytes are not valid UTF-8 (leading
0xFF byte) does not make `from_file` fail — the file is opened with
`errors='ignore'`, the invalid byte is dropped, and the remaining lines
are processed normally (the `except UnicodeDecodeError` handler in the
source is unreachable for decoding). -/
theorem C7_counterexample :
    utf8Valid [0xFF, 0x61, 0x62, 0x0A] = false ∧
    from_file
      (fun p => if p = "domains.txt".toList then some [0xFF, 0x61, 0x62, 0x0A]
        else none)
      "domains.txt".toList [] = .ok (["ab".toList], ["ab".toList]) := by
  refine ⟨by decide, ?_⟩
  rfl

/-- C7 (amended): `from_file` fails with NotFound when the path does not
exist; a file that does exist is always processed successfully — its
bytes are decoded with undecodable sequences ignored — and in
particular an InvalidEncoding failure is never produced. -/
theorem C7_from_file_errors (fs : FileSystem) (path : Str) (seen : List Str) :
    (fs path = none → from_file fs path seen = .error .notFound) ∧
    (∀ bytes, fs path = some bytes →
      from_file fs path seen =
        .ok (from_file_lines (splitLinesAt (pyDecodeIgnore bytes)) seen)) ∧
    from_file fs path seen ≠ .error .invalidEncoding := by
  refine ⟨?_, ?_, ?_⟩
  · intro h
    unfold from_file
    rw [h]
  · intro bytes h
    unfold from_file
    rw [h]
  · unfold from_file
    rcases fs path with _ | bytes <;> simp

/-- C7 witness: a missing file produces the NotFound failure. -/
theorem C7_from_file_errors_witness :
    from_file (fun _ => none) "domains.txt".toList [] = .error .notFound :=
  (C7_from_file_errors (fun _ => none) "domains.txt".toList []).1 rfl

/-! ## Claim C5: retry exhaustion and single escalation -/

theorem genericProbeOnce_fail (env : Env) (domain : Str) (st : ClientState)
    (f : NetOutcome)
    (ho : (env st.trace.length (RDAP_ORG_URL_STEM ++ domain)).outcome = f)
    (hf : isFailOutcome f = true) :
    genericProbeOnce env domain st =
      (.inr f,
       ⟨(ensure_query_delay gKey st).last_query_time,
        (ensure_query_delay gKey st).now +
          (env st.trace.length (RDAP_ORG_URL_STEM ++ domain)).latency,
        st.trace ++ [⟨RDAP_ORG_URL_STEM ++ domain, some gKey,
          (ensure_query_delay gKey st).now⟩]⟩) := by
  simp only [genericProbeOnce, issueReq, ensure_query_delay_trace]
  rw [ho]
  cases f with
  | status code loc => simp [isFailOutcome] at hf
  | timeout => rfl
  | connErr => rfl
  | otherErr => rfl

theorem genericAttempts_zero_fail (env : Env) (domain : Str) (st : ClientState)
    (f : NetOutcome)
    (ho : (env st.trace.length (RDAP_ORG_URL_STEM ++ domain)).outcome = f)
    (hf : isFailOutcome f = true) :
    ∃ st2 : ClientState,
      st2.trace = st.trace ++ [⟨RDAP_ORG_URL_STEM ++ domain, some gKey,
        (ensure_query_delay gKey st).now⟩] ∧
      genericAttempts env domain 0 st =
        ((false, failStatus f, none), touch gKey st2) := by
  refine ⟨⟨(ensure_query_delay gKey st).last_query_time,
    (ensure_query_delay gKey st).now +
      (env st.trace.length (RDAP_ORG_URL_STEM ++ domain)).latency,
    st.trace ++ [⟨RDAP_ORG_URL_STEM ++ domain, some gKey,
      (ensure_query_delay gKey st).now⟩]⟩, rfl, ?_⟩
  simp only [genericAttempts]
  rw [genericProbeOnce_fail env domain st f ho hf]

theorem genericAttempts_succ_fail (env : Env) (domain : Str) (n : Nat)
    (st : ClientState) (f : NetOutcome)
    (ho : (env st.trace.length (RDAP_ORG_URL_STEM ++ domain)).outcome = f)
    (hf : isFailOutcome f = true) :
    ∃ st2 : ClientState,
      st2.trace = st.trace ++ [⟨RDAP_ORG_URL_STEM ++ domain, some gKey,
        (ensure_query_delay gKey st).now⟩] ∧
      genericAttempts env domain (n + 1) st =
        ((genericAttempts env domain n st2).1,
         touch gKey (genericAttempts env domain n st2).2) := by
  refine ⟨⟨(ensure_query_delay gKey st).last_query_time,
    (ensure_query_delay gKey st).now +
      (env st.trace.length (RDAP_ORG_URL_STEM ++ domain)).latency + 1000,
    st.trace ++ [⟨RDAP_ORG_URL_STEM ++ domain, some gKey,
      (ensure_query_delay gKey st).now⟩]⟩, rfl, ?_⟩
  simp only [genericAttempts]
  rw [genericProbeOnce_fail env domain st f ho hf]

theorem genericAttempts_all_fail (env : Env) (domain : Str)
    (hfail : ∀ n u, isFailOutcome (env n u).outcome = true) :
    ∀ (rl : Nat) (st : ClientState),
      ((genericAttempts env domain rl st).2.trace.map (fun e => e.key) =
        st.trace.map (fun e => e.key) ++ List.replicate (rl + 1) (some gKey)) ∧
      ∃ f, isFailOutcome f = true ∧
        (genericAttempts env domain rl st).1 = (false, failStatus f, none) := by
  intro rl
  induction rl with
  | zero =>
    intro st
    obtain ⟨st2, htr, heq⟩ := genericAttempts_zero_fail env domain st _ rfl
      (hfail st.trace.length (RDAP_ORG_URL_STEM ++ domain))
    rw [heq]
    refine ⟨?_, ?_⟩
    · simp [touch, htr]
    · exact ⟨_, hfail st.trace.length (RDAP_ORG_URL_STEM ++ domain), rfl⟩
  | succ n ih =>
    intro st
    obtain ⟨st2, htr, heq⟩ := genericAttempts_succ_fail env domain n st _ rfl
      (hfail st.trace.length (RDAP_ORG_URL_STEM ++ domain))
    rw [heq]
    obtain ⟨iha, ihb⟩ := ih st2
    refine ⟨?_, ?_⟩
    · simp only [touch]
      rw [iha, htr]
      simp [List.replicate_succ, List.append_assoc]
    · exact ihb

theorem directProbeOnce_fail (env : Env) (url key : Str) (st : ClientState)
    (f : NetOutcome)
    (ho : (env st.trace.length url).outcome = f)
    (hf : isFailOutcome f = true) :
    directProbeOnce env url key st =
      (.inr f,
       ⟨(ensure_query_delay key st).last_query_time,
        (ensure_query_delay key st).now + (env st.trace.length url).latency,
        st.trace ++ [⟨url, some key, (ensure_query_delay key st).now⟩]⟩) := by
  simp only [directProbeOnce, issueReq, ensure_query_delay_trace]
  rw [ho]
  cases f with
  | status code loc => simp [isFailOutcome] at hf
  | timeout => rfl
  | connErr => rfl
  | otherErr => rfl

theorem directAttempts_zero_fail (env : Env) (domain url key : Str)
    (maxR : Nat) (st : ClientState) (f : NetOutcome)
    (ho : (env st.trace.length url).outcome = f)
    (hf : isFailOutcome f = true) :
    ∃ st2 : ClientState,
      st2.trace = st.trace ++ [⟨url, some key, (ensure_query_delay key st).now⟩] ∧
      directAttempts env domain url key maxR 0 st =
        ((genericAttempts env domain maxR st2).1,
         touch key (genericAttempts env domain maxR st2).2) := by
  refine ⟨⟨(ensure_query_delay key st).last_query_time,
    (ensure_query_delay key st).now + (env st.trace.length url).latency,
    st.trace ++ [⟨url, some key, (ensure_query_delay key st).now⟩]⟩, rfl, ?_⟩
  simp only [directAttempts]
  rw [directProbeOnce_fail env url key st f ho hf]

theorem directAttempts_succ_fail (env : Env) (domain url key : Str)
    (maxR n : Nat) (st : ClientState) (f : NetOutcome)
    (ho : (env st.trace.length url).outcome = f)
    (hf : isFailOutcome f = true) :
    ∃ st2 : ClientState,
      st2.trace = st.trace ++ [⟨url, some key, (ensure_query_delay key st).now⟩] ∧
      directAttempts env domain url key maxR (n + 1) st =
        ((directAttempts env domain url key maxR n st2).1,
         touch key (directAttempts env domain url key maxR n st2).2) := by
  refine ⟨⟨(ensure_query_delay key st).last_query_time,
    (ensure_query_delay key st).now + (env st.trace.length url).latency + 1000,
    st.trace ++ [⟨url, some key, (ensure_query_delay key st).now⟩]⟩, rfl, ?_⟩
  simp only [directAttempts]
  rw [directProbeOnce_fail env url key st f ho hf]

theorem directAttempts_all_fail (env : Env) (domain url key : Str) (maxR : Nat)
    (hfail : ∀ n u, isFailOutcome (env n u).outcome = true) :
    ∀ (rl : Nat) (st : ClientState),
      ((directAttempts env domain url key maxR rl st).2.trace.map (fun e => e.key) =
        st.trace.map (fun e => e.key) ++ List.replicate (rl + 1) (some key) ++
        List.replicate (maxR + 1) (some gKey)) ∧
      ∃ f, isFailOutcome f = true ∧
        (directAttempts env domain url key maxR rl st).1 =
          (false, failStatus f, none) := by
  intro rl
  induction rl with
  | zero =>
    intro st
    obtain ⟨st2, htr, heq⟩ := directAttempts_zero_fail env domain url key maxR st _
      rfl (hfail st.trace.length url)
    rw [heq]
    obtain ⟨ga, gb⟩ := genericAttempts_all_fail env domain hfail maxR st2
    refine ⟨?_, ?_⟩
    · simp only [touch]
      rw [ga, htr]
      simp [List.append_assoc]
    · exact gb
  | succ n ih =>
    intro st
    obtain ⟨st2, htr, heq⟩ := directAttempts_succ_fail env domain url key maxR n st _
      rfl (hfail st.trace.length url)
    rw [heq]
    obtain ⟨iha, ihb⟩ := ih st2
    refine ⟨?_, ?_⟩
    · simp only [touch]
      rw [iha, htr]
      simp [List.replicate_succ, List.append_assoc]
    · exact ihb

/-- C5: when every network attempt fails (timeout, connection error, or
other exception), a probe on a direct route with prefer-direct enabled
performs exactly `max_retries + 1` attempts on the direct key, then
exactly one fallback sequence of `max_retries + 1` attempts on the
generic-registry key (the retry counter reset to zero), and nothing
else — the final trace is exactly these requests, so no further
escalation ever occurs — and the returned ProbeResult carries the
failure classification (timeout / connection_error / error,
available = false, no raw code) rather than an exception. -/
theorem C5_escalate_once (cfg : Config) (env : Env) (raw urlStem : Str)
    (st : ClientState)
    (hpd : cfg.prefer_direct = true)
    (hv : is_valid_domain (lowerStr raw) = true)
    (hdir : alookup (extract_tld (lowerStr raw)) DIRECT_RDAP_SERVERS = some urlStem)
    (hfail : ∀ n u, isFailOutcome (env n u).outcome = true) :
    ((check_domain cfg env raw st).2.trace.map (fun e => e.key) =
      st.trace.map (fun e => e.key) ++
      List.replicate (cfg.max_retries + 1)
        (some ("direct_".toList ++ extract_tld (lowerStr raw))) ++
      List.replicate (cfg.max_retries + 1) (some gKey)) ∧
    ((check_domain cfg env raw st).1.status = "timeout".toList ∨
     (check_domain cfg env raw st).1.status = "connection_error".toList ∨
     (check_domain cfg env raw st).1.status = "error".toList) ∧
    (check_domain cfg env raw st).1.available = false ∧
    (check_domain cfg env raw st).1.raw_code = none := by
  simp only [check_domain, hv, if_true, hpd]
  rw [hdir]
  obtain ⟨ta, tb⟩ := directAttempts_all_fail env (lowerStr raw)
    (urlStem ++ lowerStr raw) ("direct_".toList ++ extract_tld (lowerStr raw))
    cfg.max_retries hfail cfg.max_retries st
  obtain ⟨f, hf, hres⟩ := tb
  refine ⟨?_, ?_, ?_, ?_⟩
  · simpa using ta
  · simp only [hres]
    cases f with
    | status code loc => simp [isFailOutcome] at hf
    | timeout => exact Or.inl rfl
    | connErr => exact Or.inr (Or.inl rfl)
    | otherErr => exact Or.inr (Or.inr rfl)
  · have h2 := congrArg (fun p => p.1) hres
    simpa using h2
  · have h2 := congrArg (fun p => p.2.2) hres
    simpa using h2

/-- C5 witness: a concrete always-timeout environment with
`max_retries = 1` on the direct `.ch` route. -/
theorem C5_escalate_once_witness :
    ((check_domain ⟨1, true⟩ (fun _ _ => ⟨.timeout, 0⟩) "a.ch".toList
        initClientState).2.trace.map (fun e => e.key) =
      initClientState.trace.map (fun e => e.key) ++
      List.replicate ((⟨1, true⟩ : Config).max_retries + 1)
        (some ("direct_".toList ++ extract_tld (lowerStr "a.ch".toList))) ++
      List.replicate ((⟨1, true⟩ : Config).max_retries + 1) (some gKey)) ∧
    ((check_domain ⟨1, true⟩ (fun _ _ => ⟨.timeout, 0⟩) "a.ch".toList
        initClientState).1.status = "timeout".toList ∨
     (check_domain ⟨1, true⟩ (fun _ _ => ⟨.timeout, 0⟩) "a.ch".toList
        initClientState).1.status = "connection_error".toList ∨
     (check_domain ⟨1, true⟩ (fun _ _ => ⟨.timeout, 0⟩) "a.ch".toList
        initClientState).1.status = "error".toList) ∧
    (check_domain ⟨1, true⟩ (fun _ _ => ⟨.timeout, 0⟩) "a.ch".toList
        initClientState).1.available = false ∧
    (check_domain ⟨1, true⟩ (fun _ _ => ⟨.timeout, 0⟩) "a.ch".toList
        initClientState).1.raw_code = none :=
  C5_escalate_once ⟨1, true⟩ (fun _ _ => ⟨.timeout, 0⟩) "a.ch".toList
    "https://rdap.nic.ch/domain/".toList initClientState rfl (by decide)
    (by decide) (fun n u => rfl)

/-! ## Claim C4: rate-limit spacing -/

/-- C4 counterexample: the claim fails when RouteKey is read, as the
claim's own parenthetical says, as "one direct RDAP server": the `.ch`
and `.li` entries of DIRECT_RDAP_SERVERS point at the same physical
server (rdap.nic.ch), but the code keys its rate-limit bookkeeping by
the per-TLD strings `direct_.ch` and `direct_.li`; probing `a.ch` and
then `b.li` issues two consecutive physical requests to rdap.nic.ch
both at t = 0 ms, 0 < 1000 ms apart. -/
theorem C4_counterexample :
    ((check_domains ⟨2, true⟩ (fun _ _ => ⟨.status 200 none, 0⟩)
        ["a.ch".toList, "b.li".toList] initClientState).2.trace.map
      (fun e => (hostOf e.url, e.issue, e.key))) =
      [("rdap.nic.ch".toList, 0, some "direct_.ch".toList),
       ("rdap.nic.ch".toList, 0, some "direct_.li".toList)] := by
  decide

theorem touch_trace (k : Str) (st : ClientState) : (touch k st).trace = st.trace := rfl

theorem touch_now (k : Str) (st : ClientState) : (touch k st).now = st.now := rfl

theorem alookup_touch_self (k : Str) (st : ClientState) :
    alookup k (touch k st).last_query_time = some st.now := by
  simp [touch, alookup]

theorem alookup_touch_other (k k2 : Str) (st : ClientState) (h : k2 ≠ k) :
    alookup k2 (touch k st).last_query_time = alookup k2 st.last_query_time := by
  simp [touch, alookup, h]

theorem keyTimes_append (k : Str) (tr Δ : List ReqEvent) :
    keyTimes k (tr ++ Δ) = keyTimes k tr ++ keyTimes k Δ := by
  simp [keyTimes, List.filter_append]

theorem mem_keyTimes (k : Str) (tr : List ReqEvent) (t : Nat) :
    t ∈ keyTimes k tr ↔ ∃ e ∈ tr, e.key = some k ∧ e.issue = t := by
  simp only [keyTimes, List.mem_map, List.mem_filter, decide_eq_true_eq]
  constructor
  · rintro ⟨e, ⟨he, hk⟩, ht⟩
    exact ⟨e, he, hk, ht⟩
  · rintro ⟨e, he, hk, ht⟩
    exact ⟨e, ⟨he, hk⟩, ht⟩

theorem keyTimes_nil_of_no_key (k : Str) (Δ : List ReqEvent)
    (h : ∀ e ∈ Δ, e.key ≠ some k) : keyTimes k Δ = [] := by
  simp only [keyTimes, List.map_eq_nil_iff]
  rw [List.filter_eq_nil_iff]
  intro e he
  simp [h e he]

theorem coveredKey_transport (k : Str) (st st2 : ClientState)
    (hlast : alookup k st2.last_query_time = alookup k st.last_query_time)
    (htr : keyTimes k st2.trace = keyTimes k st.trace)
    (h : coveredKey k st) : coveredKey k st2 := by
  intro t ht
  rw [htr] at ht
  obtain ⟨u, hu, htu⟩ := h t ht
  exact ⟨u, by rw [hlast]; exact hu, htu⟩

theorem okKey_transport (k : Str) (st st2 : ClientState)
    (hnow : st.now ≤ st2.now)
    (hlast : alookup k st2.last_query_time = alookup k st.last_query_time)
    (htr : keyTimes k st2.trace = keyTimes k st.trace)
    (h : okKey k st) : okKey k st2 := by
  rcases h with h | h
  · exact Or.inl (coveredKey_transport k st st2 hlast htr h)
  · refine Or.inr fun t ht => ?_
    rw [htr] at ht
    exact le_trans (h t ht) hnow

theorem coveredKey_touch_self (k : Str) (st : ClientState)
    (hbound : ∀ t ∈ keyTimes k st.trace, t ≤ st.now) :
    coveredKey k (touch k st) := by
  intro t ht
  rw [touch_trace] at ht
  exact ⟨st.now, alookup_touch_self k st, hbound t ht⟩

theorem keyTimes_le_now (k : Str) (st : ClientState) (hib : issuesBounded st) :
    ∀ t ∈ keyTimes k st.trace, t ≤ st.now := by
  intro t ht
  obtain ⟨e, he, _, hti⟩ := (mem_keyTimes k st.trace t).mp ht
  rw [← hti]
  exact hib e he

theorem baseInv_touch (k : Str) (st : ClientState) (h : baseInv st) :
    baseInv (touch k st) := by
  obtain ⟨h1, h2, h3, h4⟩ := h
  refine ⟨h1, h2, h3, ?_⟩
  intro k2 u hu
  rw [touch_now]
  by_cases hk : k2 = k
  · subst hk
    rw [alookup_touch_self] at hu
    injection hu with hu
    rw [hu]
  · rw [alookup_touch_other k k2 st hk] at hu
    exact h4 k2 u hu

theorem pairwise_append_singleton (R : Nat → Nat → Prop) (l : List Nat) (x : Nat) :
    (l ++ [x]).Pairwise R ↔ l.Pairwise R ∧ ∀ a ∈ l, R a x := by
  rw [List.pairwise_append]
  simp

theorem pairwise_event_append_singleton (R : ReqEvent → ReqEvent → Prop)
    (l : List ReqEvent) (x : ReqEvent) :
    (l ++ [x]).Pairwise R ↔ l.Pairwise R ∧ ∀ a ∈ l, R a x := by
  rw [List.pairwise_append]
  simp

theorem issue_step_spec (env : Env) (k url : Str) (st : ClientState)
    (hbase : baseInv st) (hok : okKey k st) :
    baseInv (issueReq env (some k) url (ensure_query_delay k st)).2 ∧
    st.now ≤ (issueReq env (some k) url (ensure_query_delay k st)).2.now ∧
    (issueReq env (some k) url (ensure_query_delay k st)).2.trace =
      st.trace ++ [⟨url, some k, (ensure_query_delay k st).now⟩] ∧
    (issueReq env (some k) url (ensure_query_delay k st)).2.last_query_time =
      st.last_query_time := by
  obtain ⟨hchron, hspaced, hib, hlb⟩ := hbase
  have hT : st.now ≤ (ensure_query_delay k st).now := ensure_query_delay_now_ge k st
  have hgap : ∀ t ∈ keyTimes k st.trace, t + 1000 ≤ (ensure_query_delay k st).now := by
    intro t ht
    rcases hok with hcov | hold
    · obtain ⟨u, hu, htu⟩ := hcov t ht
      have := ensure_query_delay_now_ge_entry k st u hu
      omega
    · exact le_trans (hold t ht) hT
  have htr : (issueReq env (some k) url (ensure_query_delay k st)).2.trace =
      st.trace ++ [⟨url, some k, (ensure_query_delay k st).now⟩] := by
    simp [issueReq, ensure_query_delay_trace]
  have hlast : (issueReq env (some k) url (ensure_query_delay k st)).2.last_query_time =
      st.last_query_time := by
    simp [issueReq, ensure_query_delay_last]
  have hnow : (issueReq env (some k) url (ensure_query_delay k st)).2.now =
      (ensure_query_delay k st).now +
        (env st.trace.length url).latency := by
    simp [issueReq, ensure_query_delay_trace]
  refine ⟨⟨?_, ?_, ?_, ?_⟩, ?_, htr, hlast⟩
  · unfold chronTrace
    rw [htr, pairwise_event_append_singleton]
    refine ⟨hchron, fun a ha => ?_⟩
    exact le_trans (hib a ha) (le_trans hT (le_refl _))
  · intro k0
    rw [htr, keyTimes_append]
    by_cases hk0 : k0 = k
    · subst hk0
      have hsingle : keyTimes k0 [(⟨url, some k0, (ensure_query_delay k0 st).now⟩ : ReqEvent)] =
          [(ensure_query_delay k0 st).now] := by
        simp [keyTimes]
      rw [hsingle, pairwise_append_singleton]
      exact ⟨hspaced k0, hgap⟩
    · have hsingle : keyTimes k0 [(⟨url, some k, (ensure_query_delay k st).now⟩ : ReqEvent)] =
          [] := by
        simp [keyTimes, hk0]
        intro hc
        exact absurd hc.symm hk0
      rw [hsingle, List.append_nil]
      exact hspaced k0
  · intro e he
    rw [htr] at he
    rw [hnow]
    rcases List.mem_append.mp he with h1 | h1
    · have := hib e h1
      omega
    · rcases List.mem_singleton.mp h1 with rfl
      simp
  · intro k2 u hu
    rw [hlast] at hu
    rw [hnow]
    have := hlb k2 u hu
    omega
  · rw [hnow]
    omega

theorem baseInv_sleep (st : ClientState) (d : Nat) (hbase : baseInv st) :
    baseInv { st with now := st.now + d } := by
  obtain ⟨h1, h2, h3, h4⟩ := hbase
  refine ⟨h1, h2, ?_, ?_⟩
  · intro e he
    have := h3 e he
    simp only []
    omega
  · intro k u hu
    have := h4 k u hu
    simp only []
    omega

theorem issue_none_spec (env : Env) (url : Str) (st : ClientState)
    (hbase : baseInv st) :
    baseInv (issueReq env none url st).2 ∧
    st.now ≤ (issueReq env none url st).2.now ∧
    (issueReq env none url st).2.trace = st.trace ++ [⟨url, none, st.now⟩] ∧
    (issueReq env none url st).2.last_query_time = st.last_query_time := by
  obtain ⟨hchron, hspaced, hib, hlb⟩ := hbase
  refine ⟨⟨?_, ?_, ?_, ?_⟩, ?_, ?_, ?_⟩
  · unfold chronTrace
    simp only [issueReq]
    rw [pairwise_event_append_singleton]
    exact ⟨hchron, fun a ha => hib a ha⟩
  · intro k0
    simp only [issueReq]
    rw [keyTimes_append]
    have hnil : keyTimes k0 [(⟨url, none, st.now⟩ : ReqEvent)] = [] := by
      simp [keyTimes]
    rw [hnil, List.append_nil]
    exact hspaced k0
  · intro e he
    simp only [issueReq] at he ⊢
    rcases List.mem_append.mp he with h1 | h1
    · have := hib e h1
      omega
    · rcases List.mem_singleton.mp h1 with rfl
      simp
  · intro k u hu
    simp only [issueReq] at hu ⊢
    have := hlb k u hu
    omega
  · simp only [issueReq]
    omega
  · simp [issueReq]
  · simp [issueReq]

theorem handleGenericOk_spec (env : Env) (code : Nat) (loc : Option Str)
    (st : ClientState) (hbase : baseInv st) :
    baseInv (handleGenericOk env code loc st).2 ∧
    st.now ≤ (handleGenericOk env code loc st).2.now ∧
    (∃ Δ, (handleGenericOk env code loc st).2.trace = st.trace ++ Δ ∧
      ∀ e ∈ Δ, e.key = none) ∧
    (handleGenericOk env code loc st).2.last_query_time = st.last_query_time := by
  unfold handleGenericOk
  by_cases h302 : code = 302
  · rw [if_pos h302]
    rcases loc with _ | X
    · exact ⟨hbase, le_refl _, ⟨[], by simp, by simp⟩, rfl⟩
    · have hst1 : baseInv { st with now := st.now + 500 } :=
        baseInv_sleep st 500 hbase
      obtain ⟨b1, b2, b3, b4⟩ :=
        issue_none_spec env X { st with now := st.now + 500 } hst1
      dsimp only
      rcases hr : issueReq env none X { st with now := st.now + 500 } with ⟨r2, st2⟩
      rw [hr] at b1 b2 b3 b4
      rcases r2 with ⟨o, lat⟩
      rcases o with ⟨code2, loc2⟩ | _ | _ | _ <;>
        exact ⟨b1, le_trans (Nat.le_add_right st.now 500) b2,
          ⟨[⟨X, none, st.now + 500⟩], b3, by simp⟩, b4⟩
  · rw [if_neg h302]
    by_cases h404 : code = 404
    · rw [if_pos h404]
      exact ⟨hbase, le_refl _, ⟨[], by simp, by simp⟩, rfl⟩
    · rw [if_neg h404]
      exact ⟨hbase, le_refl _, ⟨[], by simp, by simp⟩, rfl⟩

theorem genericProbeOnce_spec (env : Env) (domain : Str) (st : ClientState)
    (hbase : baseInv st) (hok : okKey gKey st) :
    baseInv (genericProbeOnce env domain st).2 ∧
    st.now ≤ (genericProbeOnce env domain st).2.now ∧
    (∃ Δ, (genericProbeOnce env domain st).2.trace = st.trace ++ Δ ∧
      ∀ e ∈ Δ, e.key = some gKey ∨ e.key = none) ∧
    (∀ k2, k2 ≠ gKey →
      alookup k2 (genericProbeOnce env domain st).2.last_query_time =
        alookup k2 st.last_query_time) ∧
    (∀ res, (genericProbeOnce env domain st).1 = .inl res →
      coveredKey gKey (genericProbeOnce env domain st).2) ∧
    (∀ f, (genericProbeOnce env domain st).1 = .inr f →
      (genericProbeOnce env domain st).2.last_query_time = st.last_query_time) := by
  obtain ⟨b1, b2, b3, b4⟩ :=
    issue_step_spec env gKey (RDAP_ORG_URL_STEM ++ domain) st hbase hok
  simp only [genericProbeOnce]
  rcases hr : issueReq env (some gKey) (RDAP_ORG_URL_STEM ++ domain)
      (ensure_query_delay gKey st) with ⟨r, st2⟩
  rw [hr] at b1 b2 b3 b4
  rcases r with ⟨o, lat⟩
  rcases o with ⟨code, loc⟩ | _ | _ | _
  · -- status: touch, handle, touch
    dsimp only
    have hb3 : baseInv (touch gKey st2) := baseInv_touch gKey st2 b1
    obtain ⟨c1, c2, c3, c4⟩ :=
      handleGenericOk_spec env code loc (touch gKey st2) hb3
    rcases hh : handleGenericOk env code loc (touch gKey st2) with ⟨res0, st4⟩
    rw [hh] at c1 c2 c3 c4
    dsimp only
    dsimp only at c1 c2 c3 c4
    obtain ⟨Δn, hΔn, hΔnone⟩ := c3
    refine ⟨baseInv_touch gKey st4 c1, ?_, ?_, ?_, ?_, ?_⟩
    · rw [touch_now]
      exact le_trans b2 (le_trans (le_of_eq (touch_now gKey st2).symm) c2)
    · refine ⟨[⟨RDAP_ORG_URL_STEM ++ domain, some gKey,
        (ensure_query_delay gKey st).now⟩] ++ Δn, ?_, ?_⟩
      · rw [touch_trace, hΔn, touch_trace, b3, List.append_assoc]
      · intro e he
        rcases List.mem_append.mp he with h1 | h1
        · rcases List.mem_singleton.mp h1 with rfl
          exact Or.inl rfl
        · exact Or.inr (hΔnone e h1)
    · intro k2 hk2
      rw [alookup_touch_other gKey k2 st4 hk2, c4,
        alookup_touch_other gKey k2 st2 hk2, b4]
    · intro res _
      apply coveredKey_touch_self
      apply keyTimes_le_now
      exact c1.2.2.1
    · intro f hf
      simp at hf
  all_goals
    (dsimp only
     exact ⟨b1, b2, ⟨[⟨RDAP_ORG_URL_STEM ++ domain, some gKey,
        (ensure_query_delay gKey st).now⟩], b3, fun e he => by
          rcases List.mem_singleton.mp he with rfl; exact Or.inl rfl⟩,
        fun k2 _ => by rw [b4], fun res h => by simp at h, fun f _ => b4⟩)

theorem genericAttempts_spec (env : Env) (domain : Str) :
    ∀ (rl : Nat) (st : ClientState), baseInv st → okKey gKey st →
      baseInv (genericAttempts env domain rl st).2 ∧
      st.now ≤ (genericAttempts env domain rl st).2.now ∧
      (∃ Δ, (genericAttempts env domain rl st).2.trace = st.trace ++ Δ ∧
        ∀ e ∈ Δ, e.key = some gKey ∨ e.key = none) ∧
      (∀ k2, k2 ≠ gKey →
        alookup k2 (genericAttempts env domain rl st).2.last_query_time =
          alookup k2 st.last_query_time) ∧
      coveredKey gKey (genericAttempts env domain rl st).2 := by
  intro rl
  induction rl with
  | zero =>
    intro st hbase hok
    obtain ⟨p1, p2, p3, p4, p5, p6⟩ := genericProbeOnce_spec env domain st hbase hok
    simp only [genericAttempts]
    rcases hp : genericProbeOnce env domain st with ⟨o, st1⟩
    rw [hp] at p1 p2 p3 p4 p5 p6
    rcases o with res | f
    · exact ⟨p1, p2, p3, p4, p5 res rfl⟩
    · dsimp only
      refine ⟨baseInv_touch gKey st1 p1, ?_, ?_, ?_, ?_⟩
      · rw [touch_now]; exact p2
      · obtain ⟨Δ, hΔ, hΔk⟩ := p3
        exact ⟨Δ, by rw [touch_trace]; exact hΔ, hΔk⟩
      · intro k2 hk2
        rw [alookup_touch_other gKey k2 st1 hk2]
        exact p4 k2 hk2
      · exact coveredKey_touch_self gKey st1 (keyTimes_le_now gKey st1 p1.2.2.1)
  | succ n ih =>
    intro st hbase hok
    obtain ⟨p1, p2, p3, p4, p5, p6⟩ := genericProbeOnce_spec env domain st hbase hok
    simp only [genericAttempts]
    rcases hp : genericProbeOnce env domain st with ⟨o, st1⟩
    rw [hp] at p1 p2 p3 p4 p5 p6
    rcases o with res | f
    · exact ⟨p1, p2, p3, p4, p5 res rfl⟩
    · dsimp only
      have hsleep : baseInv { st1 with now := st1.now + 1000 } :=
        baseInv_sleep st1 1000 p1
      have hok2 : okKey gKey { st1 with now := st1.now + 1000 } := by
        refine Or.inr fun t ht => ?_
        have : t ≤ st1.now := keyTimes_le_now gKey st1 p1.2.2.1 t ht
        simp only []
        omega
      obtain ⟨q1, q2, q3, q4, q5⟩ := ih { st1 with now := st1.now + 1000 } hsleep hok2
      rcases hg : genericAttempts env domain n { st1 with now := st1.now + 1000 }
        with ⟨res2, st3⟩
      rw [hg] at q1 q2 q3 q4 q5
      dsimp only
      refine ⟨baseInv_touch gKey st3 q1, ?_, ?_, ?_, ?_⟩
      · rw [touch_now]
        refine le_trans p2 (le_trans ?_ q2)
        simp only []
        omega
      · obtain ⟨Δ1, hΔ1, hΔ1k⟩ := p3
        obtain ⟨Δ2, hΔ2, hΔ2k⟩ := q3
        refine ⟨Δ1 ++ Δ2, ?_, ?_⟩
        · rw [touch_trace, hΔ2]
          simp only []
          rw [hΔ1, List.append_assoc]
        · intro e he
          rcases List.mem_append.mp he with h1 | h1
          · exact hΔ1k e h1
          · exact hΔ2k e h1
      · intro k2 hk2
        rw [alookup_touch_other gKey k2 st3 hk2, q4 k2 hk2]
        simp only []
        exact p4 k2 hk2
      · exact coveredKey_touch_self gKey st3 (keyTimes_le_now gKey st3 q1.2.2.1)

theorem directProbeOnce_spec (env : Env) (url key : Str) (st : ClientState)
    (hbase : baseInv st) (hok : okKey key st) :
    baseInv (directProbeOnce env url key st).2 ∧
    st.now ≤ (directProbeOnce env url key st).2.now ∧
    (∃ Δ, (directProbeOnce env url key st).2.trace = st.trace ++ Δ ∧
      ∀ e ∈ Δ, e.key = some key) ∧
    (∀ k2, k2 ≠ key →
      alookup k2 (directProbeOnce env url key st).2.last_query_time =
        alookup k2 st.last_query_time) ∧
    (∀ res, (directProbeOnce env url key st).1 = .inl res →
      coveredKey key (directProbeOnce env url key st).2) ∧
    (∀ f, (directProbeOnce env url key st).1 = .inr f →
      (directProbeOnce env url key st).2.last_query_time = st.last_query_time) := by
  obtain ⟨b1, b2, b3, b4⟩ := issue_step_spec env key url st hbase hok
  simp only [directProbeOnce]
  rcases hr : issueReq env (some key) url (ensure_query_delay key st) with ⟨r, st2⟩
  rw [hr] at b1 b2 b3 b4
  rcases r with ⟨o, lat⟩
  rcases o with ⟨code, loc⟩ | _ | _ | _
  · dsimp only
    refine ⟨baseInv_touch key st2 b1, ?_, ?_, ?_, ?_, ?_⟩
    · rw [touch_now]; exact b2
    · refine ⟨[⟨url, some key, (ensure_query_delay key st).now⟩], ?_, ?_⟩
      · rw [touch_trace]; exact b3
      · intro e he
        rcases List.mem_singleton.mp he with rfl
        rfl
    · intro k2 hk2
      rw [alookup_touch_other key k2 st2 hk2, b4]
    · intro res _
      exact coveredKey_touch_self key st2 (keyTimes_le_now key st2 b1.2.2.1)
    · intro f h
      simp at h
  all_goals
    (dsimp only
     exact ⟨b1, b2, ⟨[⟨url, some key, (ensure_query_delay key st).now⟩], b3,
        fun e he => by rcases List.mem_singleton.mp he with rfl; rfl⟩,
      fun k2 _ => by rw [b4], fun res h => by simp at h, fun f _ => b4⟩)

theorem keyTimes_unchanged_of_other (k : Str) (tr Δ : List ReqEvent)
    (h : ∀ e ∈ Δ, e.key ≠ some k) :
    keyTimes k (tr ++ Δ) = keyTimes k tr := by
  rw [keyTimes_append, keyTimes_nil_of_no_key k Δ h, List.append_nil]

theorem directAttempts_spec (env : Env) (domain url key : Str) (maxR : Nat)
    (hkg : key ≠ gKey) :
    ∀ (rl : Nat) (st : ClientState), baseInv st → okKey key st →
      coveredKey gKey st →
      baseInv (directAttempts env domain url key maxR rl st).2 ∧
      st.now ≤ (directAttempts env domain url key maxR rl st).2.now ∧
      (∃ Δ, (directAttempts env domain url key maxR rl st).2.trace =
          st.trace ++ Δ ∧
        ∀ e ∈ Δ, e.key = some key ∨ e.key = some gKey ∨ e.key = none) ∧
      (∀ k2, k2 ≠ key → k2 ≠ gKey →
        alookup k2 (directAttempts env domain url key maxR rl st).2.last_query_time =
          alookup k2 st.last_query_time) ∧
      coveredKey key (directAttempts env domain url key maxR rl st).2 ∧
      coveredKey gKey (directAttempts env domain url key maxR rl st).2 := by
  intro rl
  induction rl with
  | zero =>
    intro st hbase hok hcovg
    obtain ⟨p1, p2, p3, p4, p5, p6⟩ := directProbeOnce_spec env url key st hbase hok
    simp only [directAttempts]
    rcases hp : directProbeOnce env url key st with ⟨o, st1⟩
    rw [hp] at p1 p2 p3 p4 p5 p6
    rcases o with res | f
    · obtain ⟨Δ, hΔ, hΔk⟩ := p3
      have hgtr : keyTimes gKey st1.trace = keyTimes gKey st.trace := by
        rw [hΔ]
        refine keyTimes_unchanged_of_other gKey st.trace Δ fun e he => ?_
        rw [hΔk e he]
        intro hc
        injection hc with hc
        exact hkg hc
      refine ⟨p1, p2, ⟨Δ, hΔ, fun e he => Or.inl (hΔk e he)⟩,
        fun k2 hk2 _ => p4 k2 hk2, p5 res rfl, ?_⟩
      exact coveredKey_transport gKey st st1 (p4 gKey (Ne.symm hkg)) hgtr hcovg
    · -- retries exhausted: escalate to the generic registry
      have hlast1 : st1.last_query_time = st.last_query_time := p6 f rfl
      obtain ⟨Δ0, hΔ0, hΔ0k⟩ := p3
      have hgtr : keyTimes gKey st1.trace = keyTimes gKey st.trace := by
        rw [hΔ0]
        refine keyTimes_unchanged_of_other gKey st.trace Δ0 fun e he => ?_
        rw [hΔ0k e he]
        intro hc
        injection hc with hc
        exact hkg hc
      have hcovg1 : coveredKey gKey st1 :=
        coveredKey_transport gKey st st1 (by rw [hlast1]) hgtr hcovg
      obtain ⟨q1, q2, q3, q4, q5⟩ :=
        genericAttempts_spec env domain maxR st1 p1 (Or.inl hcovg1)
      dsimp only
      rcases hg : genericAttempts env domain maxR st1 with ⟨res2, st3⟩
      rw [hg] at q1 q2 q3 q4 q5
      dsimp only at q1 q2 q3 q4 q5
      refine ⟨baseInv_touch key st3 q1, ?_, ?_, ?_, ?_, ?_⟩
      · rw [touch_now]; exact le_trans p2 q2
      · obtain ⟨Δg, hΔg, hΔgk⟩ := q3
        refine ⟨Δ0 ++ Δg, ?_, ?_⟩
        · rw [touch_trace, hΔg, hΔ0, List.append_assoc]
        · intro e he
          rcases List.mem_append.mp he with h1 | h1
          · exact Or.inl (hΔ0k e h1)
          · exact Or.inr (hΔgk e h1)
      · intro k2 hk2 hk2g
        rw [alookup_touch_other key k2 st3 hk2, q4 k2 hk2g, hlast1]
      · exact coveredKey_touch_self key st3 (keyTimes_le_now key st3 q1.2.2.1)
      · refine coveredKey_transport gKey st3 (touch key st3) ?_ (by rw [touch_trace]) q5
        exact alookup_touch_other key gKey st3 (Ne.symm hkg)
  | succ n ih =>
    intro st hbase hok hcovg
    obtain ⟨p1, p2, p3, p4, p5, p6⟩ := directProbeOnce_spec env url key st hbase hok
    simp only [directAttempts]
    rcases hp : directProbeOnce env url key st with ⟨o, st1⟩
    rw [hp] at p1 p2 p3 p4 p5 p6
    rcases o with res | f
    · obtain ⟨Δ, hΔ, hΔk⟩ := p3
      have hgtr : keyTimes gKey st1.trace = keyTimes gKey st.trace := by
        rw [hΔ]
        refine keyTimes_unchanged_of_other gKey st.trace Δ fun e he => ?_
        rw [hΔk e he]
        intro hc
        injection hc with hc
        exact hkg hc
      refine ⟨p1, p2, ⟨Δ, hΔ, fun e he => Or.inl (hΔk e he)⟩,
        fun k2 hk2 _ => p4 k2 hk2, p5 res rfl, ?_⟩
      exact coveredKey_transport gKey st st1 (p4 gKey (Ne.symm hkg)) hgtr hcovg
    · have hlast1 : st1.last_query_time = st.last_query_time := p6 f rfl
      obtain ⟨Δ0, hΔ0, hΔ0k⟩ := p3
      have hgtr : keyTimes gKey st1.trace = keyTimes gKey st.trace := by
        rw [hΔ0]
        refine keyTimes_unchanged_of_other gKey st.trace Δ0 fun e he => ?_
        rw [hΔ0k e he]
        intro hc
        injection hc with hc
        exact hkg hc
      have hcovg1 : coveredKey gKey st1 :=
        coveredKey_transport gKey st st1 (by rw [hlast1]) hgtr hcovg
      dsimp only
      have hsleep : baseInv { st1 with now := st1.now + 1000 } :=
        baseInv_sleep st1 1000 p1
      have hok2 : okKey key { st1 with now := st1.now + 1000 } := by
        refine Or.inr fun t ht => ?_
        have : t ≤ st1.now := keyTimes_le_now key st1 p1.2.2.1 t ht
        simp only []
        omega
      have hcovg2 : coveredKey gKey { st1 with now := st1.now + 1000 } :=
        coveredKey_transport gKey st1 _ rfl rfl hcovg1
      obtain ⟨q1, q2, q3, q4, q5, q6⟩ :=
        ih { st1 with now := st1.now + 1000 } hsleep hok2 hcovg2
      rcases hd : directAttempts env domain url key maxR n
          { st1 with now := st1.now + 1000 } with ⟨res2, st3⟩
      rw [hd] at q1 q2 q3 q4 q5 q6
      dsimp only at q1 q2 q3 q4 q5 q6
      refine ⟨baseInv_touch key st3 q1, ?_, ?_, ?_, ?_, ?_⟩
      · rw [touch_now]
        refine le_trans p2 (le_trans ?_ q2)
        try simp only []
        omega
      · obtain ⟨Δ2, hΔ2, hΔ2k⟩ := q3
        refine ⟨Δ0 ++ Δ2, ?_, ?_⟩
        · rw [touch_trace, hΔ2]
          try simp only []
          rw [hΔ0, List.append_assoc]
        · intro e he
          rcases List.mem_append.mp he with h1 | h1
          · exact Or.inl (hΔ0k e h1)
          · exact hΔ2k e h1
      · intro k2 hk2 hk2g
        rw [alookup_touch_other key k2 st3 hk2, q4 k2 hk2 hk2g]
        try simp only []
        try rw [hlast1]
      · exact coveredKey_touch_self key st3 (keyTimes_le_now key st3 q1.2.2.1)
      · refine coveredKey_transport gKey st3 (touch key st3) ?_ (by rw [touch_trace]) q6
        exact alookup_touch_other key gKey st3 (Ne.symm hkg)

theorem direct_key_ne_gKey (tld : Str) : "direct_".toList ++ tld ≠ gKey := by
  intro h
  have h2 := congrArg List.head? h
  simp [gKey] at h2

theorem clientInv_of_parts (st : ClientState) (hbase : baseInv st)
    (hcov : ∀ k, coveredKey k st) : clientInv st := ⟨hbase, hcov⟩

theorem check_domain_spec (cfg : Config) (env : Env) (raw : Str)
    (st : ClientState) (hinv : clientInv st) :
    clientInv (check_domain cfg env raw st).2 := by
  obtain ⟨hbase, hcov⟩ := hinv
  by_cases hv : is_valid_domain (lowerStr raw) = true
  · simp only [check_domain, hv, if_true]
    rcases hroute : (if cfg.prefer_direct then
        alookup (extract_tld (lowerStr raw)) DIRECT_RDAP_SERVERS else none)
      with _ | urlStem
    · dsimp only
      obtain ⟨q1, q2, q3, q4, q5⟩ :=
        genericAttempts_spec env (lowerStr raw) cfg.max_retries st hbase
          (Or.inl (hcov gKey))
      rcases hg : genericAttempts env (lowerStr raw) cfg.max_retries st
        with ⟨res, st1⟩
      rw [hg] at q1 q2 q3 q4 q5
      dsimp only at q1 q2 q3 q4 q5 ⊢
      refine ⟨q1, fun k => ?_⟩
      by_cases hk : k = gKey
      · subst hk; exact q5
      · obtain ⟨Δ, hΔ, hΔk⟩ := q3
        refine coveredKey_transport k st st1 (q4 k hk) ?_ (hcov k)
        rw [hΔ]
        refine keyTimes_unchanged_of_other k st.trace Δ fun e he => ?_
        rcases hΔk e he with h1 | h1 <;> rw [h1]
        · intro hc; injection hc with hc; exact hk hc.symm
        · intro hc; cases hc
    · dsimp only
      have hkg := direct_key_ne_gKey (extract_tld (lowerStr raw))
      obtain ⟨q1, q2, q3, q4, q5, q6⟩ :=
        directAttempts_spec env (lowerStr raw) (urlStem ++ lowerStr raw)
          ("direct_".toList ++ extract_tld (lowerStr raw)) cfg.max_retries hkg
          cfg.max_retries st hbase
          (Or.inl (hcov ("direct_".toList ++ extract_tld (lowerStr raw))))
          (hcov gKey)
      rcases hd : directAttempts env (lowerStr raw) (urlStem ++ lowerStr raw)
          ("direct_".toList ++ extract_tld (lowerStr raw)) cfg.max_retries
          cfg.max_retries st with ⟨res, st1⟩
      rw [hd] at q1 q2 q3 q4 q5 q6
      dsimp only at q1 q2 q3 q4 q5 q6 ⊢
      refine ⟨q1, fun k => ?_⟩
      by_cases hk1 : k = "direct_".toList ++ extract_tld (lowerStr raw)
      · subst hk1; exact q5
      · by_cases hk2 : k = gKey
        · subst hk2; exact q6
        · obtain ⟨Δ, hΔ, hΔk⟩ := q3
          refine coveredKey_transport k st st1 (q4 k hk1 hk2) ?_ (hcov k)
          rw [hΔ]
          refine keyTimes_unchanged_of_other k st.trace Δ fun e he => ?_
          rcases hΔk e he with h1 | h1 | h1 <;> rw [h1]
          · intro hc; injection hc with hc; exact hk1 hc.symm
          · intro hc; injection hc with hc; exact hk2 hc.symm
          · intro hc; cases hc
  · have hv2 : is_valid_domain (lowerStr raw) = false := by
      rcases h : is_valid_domain (lowerStr raw) with _ | _
      · rfl
      · exact absurd h hv
    simp only [check_domain, hv2]
    simp only [Bool.false_eq_true, if_false]
    exact ⟨hbase, hcov⟩

theorem check_domains_inv (cfg : Config) (env : Env) :
    ∀ (domains : List Str) (st : ClientState), clientInv st →
      clientInv (check_domains cfg env domains st).2 := by
  intro domains
  induction domains with
  | nil => intro st h; simpa [check_domains] using h
  | cons d rest ih =>
    intro st h
    have h1 := check_domain_spec cfg env d st h
    rcases hc : check_domain cfg env d st with ⟨r, st1⟩
    rw [hc] at h1
    have hrun : (check_domains cfg env (d :: rest) st).2 =
        (check_domains cfg env rest st1).2 := by
      rcases h2 : check_domains cfg env rest st1 with ⟨rs, st2⟩
      simp [check_domains, hc, h2]
    rw [hrun]
    exact ih st1 h1

theorem clientInv_init : clientInv initClientState := by
  refine ⟨⟨?_, ?_, ?_, ?_⟩, ?_⟩
  · exact List.Pairwise.nil
  · intro k; exact List.Pairwise.nil
  · intro e he; cases he
  · intro k u hu; cases hu
  · intro k t ht; cases ht

/-- C4 (amended): the spacing the code actually enforces is per
rate-limit bookkeeping key (`rdap.org` or `direct_<tld>`), not per
physical server: over any sequence of `check_domain` calls from a fresh
client, against any network behaviour, any two requests bookkept under
the same key are issued at least 1000 ms (the configured minimum
interval) apart — via the pre-request wait of `_ensure_query_delay`, or
via the 1 s retry sleep while the `finally` bookkeeping update is still
pending.  Redirect-target re-probes carry no key and are exempt (the
source only sleeps a fixed 0.5 s before them), as are requests reaching
one physical server under different TLD keys. -/
theorem C4_per_key_spacing (cfg : Config) (env : Env) (domains : List Str) :
    spacedTrace ((check_domains cfg env domains initClientState).2.trace) :=
  ((check_domains_inv cfg env domains initClientState clientInv_init).1).2.1
